import Mathlib

/-!
Verification of the StracePerfDiff core (trace parsers, similarity scorer,
banded aligner) against its specification.

Modelling conventions:
* JavaScript numbers are modelled as exact rationals (`ℚ`).  All numeric
  literals appearing in the source are decimal and are represented exactly;
  floating-point rounding, `NaN` and `Infinity` are outside the model (the
  call sites only apply `parseFloat` to strings matched by `[\d.]+` or
  `\d+\.\d+`, which carry no sign and no exponent).
* JavaScript strings are modelled as `String` at the interface and `List Char`
  internally.  The regular expressions of the source are hand-compiled to
  matchers with the same (leftmost, greedy/lazy, backtracking) semantics;
  every quantifier in the source's regexes applies to a single-character
  class, so greedy runs are maximal character runs and lazy runs are minimal
  ones.  The character classes are the ASCII parts of `\d`, `\w`, `\s`
  and `.`.
* Mutable loops become folds / structural recursions carrying explicit state;
  the JS `Map` objects become functions into `Option`.
-/

namespace StracePerfDiff

/-! ## Character classes (ASCII fragments of the JS classes) -/

def isDigitCh (c : Char) : Bool := '0' ≤ c && c ≤ '9'

def isWordCh (c : Char) : Bool :=
  ('a' ≤ c && c ≤ 'z') || ('A' ≤ c && c ≤ 'Z') || isDigitCh c || c = '_'

def isSpaceCh (c : Char) : Bool :=
  c = ' ' || c = '\t' || c = '\n' || c = '\r' || c = '\x0b' || c = '\x0c'

/-- JS `.` without the `s` flag: any char except a line terminator. -/
def isDotCh (c : Char) : Bool := !(c = '\n' || c = '\r')

def isDigitDotCh (c : Char) : Bool := isDigitCh c || c = '.'

/-! ## Levenshtein (`levenshtein` in traceService.ts)

The source computes the classic rolling single-row dynamic program:

```
const row = new Array(alen + 1).fill(0).map((_, i) => i);
for (let i = 1; i <= blen; i++) {
  prev = i;
  for (let j = 1; j <= alen; j++) {
    if (b[i - 1] === a[j - 1]) val = row[j - 1];
    else val = Math.min(row[j - 1] + 1, Math.min(prev + 1, row[j] + 1));
    row[j - 1] = prev; prev = val;
  }
  row[alen] = prev;
}
return row[alen];
```

`levRowNext` is one pass of the inner loop (producing row `i` from row
`i-1`), `levRowsGo` the outer loop. -/

def levRowNext (bc : Char) : List Char → List ℕ → ℕ → List ℕ
  | [], _, prev => [prev]
  | _ :: _, [], prev => [prev]
  | ac :: as, diag :: rest, prev =>
    let up := rest.headD 0
    let val := if bc = ac then diag else min (diag + 1) (min (prev + 1) (up + 1))
    prev :: levRowNext bc as rest val

def levRowsGo (a : List Char) : List Char → ℕ → List ℕ → List ℕ
  | [], _, row => row
  | bc :: bs, i, row => levRowsGo a bs (i + 1) (levRowNext bc a row i)

def levCore (a b : List Char) : ℕ :=
  (levRowsGo a b 1 (List.range (a.length + 1))).getD a.length 0

/-- The `levenshtein` function of the source, including its shortcut branches
(`a === b`, empty strings, and the `alen > 40 || blen > 40` cheap bound). -/
def levenshtein (a b : String) : ℕ :=
  if a = b then 0
  else if a.length = 0 then b.length
  else if b.length = 0 then a.length
  else if 40 < a.length ∨ 40 < b.length then
    ((a.length : ℤ) - (b.length : ℤ)).natAbs + 5
  else levCore a.data b.data

/-- Reference form of the dynamic program computed by the rolling row:
`levD b a i j` is the value `D[i][j]` of the matrix with rows indexed by
prefixes of `b` and columns by prefixes of `a`. -/
def levD (b a : List Char) : ℕ → ℕ → ℕ
  | 0, j => j
  | i + 1, 0 => i + 1
  | i + 1, j + 1 =>
    if b[i]? = a[j]? then levD b a i j
    else 1 + min (levD b a i j) (min (levD b a (i + 1) j) (levD b a i (j + 1)))

lemma levD_zero_left (b a : List Char) (j : ℕ) : levD b a 0 j = j := by
  simp [levD]

lemma levD_zero_right (b a : List Char) (i : ℕ) : levD b a i 0 = i := by
  cases i <;> simp [levD]

lemma levRowNext_eq (b a : List Char) (r : ℕ) (bc : Char) (hbc : b[r]? = some bc) :
    ∀ (as : List Char) (j₀ : ℕ), as = a.drop j₀ → j₀ ≤ a.length →
    levRowNext bc as ((List.range' j₀ (a.length + 1 - j₀)).map (levD b a r))
        (levD b a (r + 1) j₀)
      = (List.range' j₀ (a.length + 1 - j₀)).map (levD b a (r + 1)) := by
  intro as
  induction as with
  | nil =>
    intro j₀ hdrop hle
    have hlen : a.length ≤ j₀ := by
      by_contra hlt
      push_neg at hlt
      have := List.drop_eq_nil_iff.mp hdrop.symm
      omega
    have hj : j₀ = a.length := le_antisymm hle hlen
    subst hj
    have hcnt : a.length + 1 - a.length = 1 := by omega
    rw [hcnt]
    simp [levRowNext, List.range']
  | cons ac as ih =>
    intro j₀ hdrop hle
    have hj : j₀ < a.length := by
      by_contra hge
      push_neg at hge
      have : a.drop j₀ = [] := List.drop_eq_nil_iff.mpr hge
      rw [this] at hdrop
      exact List.noConfusion hdrop
    have hga : a[j₀]? = some ac := by
      have h1 : (a.drop j₀)[0]? = some ac := by rw [← hdrop]; simp
      rw [List.getElem?_drop] at h1
      simpa using h1
    have has : as = a.drop (j₀ + 1) := by
      have h1 : (a.drop j₀).tail = a.drop (j₀ + 1) := by
        rw [← List.drop_drop]
        simp
      rw [← hdrop] at h1
      simpa using h1
    have hcnt : a.length + 1 - j₀ = (a.length - j₀) + 1 := by omega
    have hcnt2 : a.length - j₀ = (a.length - (j₀ + 1)) + 1 := by omega
    rw [hcnt, List.range'_succ, List.map_cons, List.map_cons]
    have hstep : ∀ (d prev : ℕ) (rest : List ℕ),
        levRowNext bc (ac :: as) (d :: rest) prev
          = prev :: levRowNext bc as rest
              (if bc = ac then d else min (d + 1) (min (prev + 1) (rest.headD 0 + 1))) := by
      intro d prev rest
      rfl
    rw [hstep]
    have hrest : (List.range' (j₀ + 1) (a.length - j₀)).map (levD b a r)
        = levD b a r (j₀ + 1) :: (List.range' (j₀ + 2) (a.length - (j₀ + 1))).map (levD b a r) := by
      rw [hcnt2, List.range'_succ, List.map_cons]
    have hhead : (((List.range' (j₀ + 1) (a.length - j₀)).map (levD b a r)).headD 0)
        = levD b a r (j₀ + 1) := by
      rw [hrest]
      rfl
    have hcond : (b[r]? = a[j₀]?) ↔ (bc = ac) := by
      rw [hbc, hga]
      exact Option.some_inj
    have hval : (if bc = ac then levD b a r j₀
        else min (levD b a r j₀ + 1)
          (min (levD b a (r + 1) j₀ + 1)
            (((List.range' (j₀ + 1) (a.length - j₀)).map (levD b a r)).headD 0 + 1)))
        = levD b a (r + 1) (j₀ + 1) := by
      rw [hhead]
      by_cases hc : bc = ac
      · rw [if_pos hc]
        conv_rhs => rw [levD]
        rw [if_pos (hcond.mpr hc)]
      · rw [if_neg hc]
        conv_rhs => rw [levD]
        rw [if_neg (fun h => hc (hcond.mp h))]
        omega
    rw [hval]
    congr 1
    have hih := ih (j₀ + 1) has (by omega)
    rw [Nat.succ_sub_succ] at hih
    exact hih

lemma levRowsGo_eq (b a : List Char) :
    ∀ (bs : List Char) (r : ℕ), bs = b.drop r → r ≤ b.length →
    levRowsGo a bs (r + 1) ((List.range' 0 (a.length + 1)).map (levD b a r))
      = (List.range' 0 (a.length + 1)).map (levD b a b.length) := by
  intro bs
  induction bs with
  | nil =>
    intro r hdrop hle
    have hlen : b.length ≤ r := by
      by_contra hlt
      push_neg at hlt
      have := List.drop_eq_nil_iff.mp hdrop.symm
      omega
    have hr : r = b.length := le_antisymm hle hlen
    subst hr
    rfl
  | cons bc bs ih =>
    intro r hdrop hle
    have hr : r < b.length := by
      by_contra hge
      push_neg at hge
      have : b.drop r = [] := List.drop_eq_nil_iff.mpr hge
      rw [this] at hdrop
      exact List.noConfusion hdrop
    have hgb : b[r]? = some bc := by
      have h1 : (b.drop r)[0]? = some bc := by rw [← hdrop]; simp
      rw [List.getElem?_drop] at h1
      simpa using h1
    have hbs : bs = b.drop (r + 1) := by
      have h1 : (b.drop r).tail = b.drop (r + 1) := by
        rw [← List.drop_drop]
        simp
      rw [← hdrop] at h1
      simpa using h1
    rw [levRowsGo]
    have hseed : levD b a (r + 1) 0 = r + 1 := levD_zero_right b a (r + 1)
    have hrow := levRowNext_eq b a r bc hgb a 0 (by simp) (by omega)
    simp only [Nat.sub_zero] at hrow
    rw [hseed] at hrow
    rw [hrow]
    exact ih (r + 1) hbs (by omega)

lemma levCore_eq (a b : List Char) : levCore a b = levD b a b.length a.length := by
  unfold levCore
  have hrow0 : List.range (a.length + 1) = (List.range' 0 (a.length + 1)).map (levD b a 0) := by
    rw [List.range_eq_range']
    have : ∀ l : List ℕ, l.map (levD b a 0) = l := by
      intro l
      induction l with
      | nil => rfl
      | cons x xs ihx => simp [levD_zero_left, ihx]
    rw [this]
  rw [hrow0]
  have := levRowsGo_eq b a b 0 (by simp) (by omega)
  simp only [Nat.zero_add] at this
  rw [this]
  have hget : ((List.range' 0 (a.length + 1)).map (levD b a b.length)).getD a.length 0
      = levD b a b.length a.length := by
    have hlen : a.length < (List.range' 0 (a.length + 1)).length := by simp
    rw [List.getD_eq_getElem?_getD, List.getElem?_map]
    simp [List.getElem?_range']
  exact hget

lemma levD_symm (b a : List Char) : ∀ i j, levD b a i j = levD a b j i := by
  intro i j
  induction i, j using levD.induct b a with
  | case1 j => rw [levD_zero_left, levD_zero_right]
  | case2 i => rw [levD_zero_right, levD_zero_left]
  | case3 i j h ih =>
    rw [levD, if_pos h, ih]
    conv_rhs => rw [levD]
    rw [if_pos (by rw [h])]
  | case4 i j h ih1 ih2 ih3 =>
    rw [levD, if_neg h]
    conv_rhs => rw [levD]
    rw [if_neg (by intro hx; exact h hx.symm)]
    rw [ih1, ih2, ih3]
    omega

lemma levD_eq_zero (b a : List Char) :
    ∀ i j, levD b a i j = 0 → i = j ∧ b.take i = a.take j := by
  intro i j
  induction i, j using levD.induct b a with
  | case1 j =>
    intro h
    rw [levD_zero_left] at h
    subst h
    simp
  | case2 i =>
    intro h
    rw [levD_zero_right] at h
    exact absurd h (Nat.succ_ne_zero i)
  | case3 i j h ih =>
    intro h0
    rw [levD, if_pos h] at h0
    obtain ⟨hij, htake⟩ := ih h0
    refine ⟨by omega, ?_⟩
    rw [List.take_succ, List.take_succ, htake, h]
  | case4 i j h ih1 ih2 ih3 =>
    intro h0
    rw [levD, if_neg h] at h0
    omega

lemma string_eq_of_data_eq {s t : String} (h : s.data = t.data) : s = t := by
  cases s
  cases t
  exact congrArg String.mk h

lemma string_length_eq_data (s : String) : s.length = s.data.length := rfl

lemma string_ne_empty_length {s : String} (h : s ≠ "") : s.length ≠ 0 := by
  intro h0
  apply h
  apply string_eq_of_data_eq
  have : s.data.length = 0 := h0
  simpa using List.length_eq_zero.mp this

/-- C6. For all strings x and y, the edit-distance function is symmetric,
`distance(x,y) = distance(y,x)`; `distance(x,x) = 0` for every string x; and
`distance(x,y) = 0` holds only when x and y are identical. -/
theorem c6_levenshtein_properties (x y : String) :
    levenshtein x y = levenshtein y x ∧ levenshtein x x = 0 ∧
      (levenshtein x y = 0 → x = y) := by
  refine ⟨?_, ?_, ?_⟩
  · by_cases hxy : x = y
    · subst hxy
      rfl
    · have hyx : y ≠ x := fun h => hxy h.symm
      unfold levenshtein
      rw [if_neg hxy, if_neg hyx]
      by_cases hx : x.length = 0
      · by_cases hy : y.length = 0
        · exfalso
          apply hxy
          apply string_eq_of_data_eq
          have hx' : x.data = [] := List.length_eq_zero.mp hx
          have hy' : y.data = [] := List.length_eq_zero.mp hy
          rw [hx', hy']
        · rw [if_pos hx, if_neg hy, if_pos hx]
      · by_cases hy : y.length = 0
        · rw [if_neg hx, if_pos hy, if_pos hy]
        · rw [if_neg hx, if_neg hy, if_neg hy, if_neg hx]
          by_cases hlong : 40 < x.length ∨ 40 < y.length
          · rw [if_pos hlong, if_pos (Or.symm hlong)]
            omega
          · rw [if_neg hlong, if_neg (fun h => hlong (Or.symm h))]
            rw [levCore_eq, levCore_eq, levD_symm]
  · unfold levenshtein
    rw [if_pos rfl]
  · intro h0
    by_cases hxy : x = y
    · exact hxy
    · unfold levenshtein at h0
      rw [if_neg hxy] at h0
      by_cases hx : x.length = 0
      · rw [if_pos hx] at h0
        apply string_eq_of_data_eq
        have hx' : x.data = [] := List.length_eq_zero.mp hx
        have hy' : y.data = [] := List.length_eq_zero.mp h0
        rw [hx', hy']
      · rw [if_neg hx] at h0
        by_cases hy : y.length = 0
        · rw [if_pos hy] at h0
          exact absurd h0 hx
        · rw [if_neg hy] at h0
          by_cases hlong : 40 < x.length ∨ 40 < y.length
          · rw [if_pos hlong] at h0
            omega
          · rw [if_neg hlong, levCore_eq] at h0
            obtain ⟨hlen, htake⟩ := levD_eq_zero y.data x.data y.data.length x.data.length h0
            apply string_eq_of_data_eq
            have h1 : y.data.take y.data.length = y.data := by simp
            have h2 : x.data.take x.data.length = x.data := by simp
            rw [h1, h2] at htake
            exact htake.symm

/-- C6 witness: the three properties at concrete strings, with the
hypothesis of the third conjunct discharged at `x = y = "ab"`. -/
theorem c6_levenshtein_properties_witness :
    levenshtein "ab" "ba" = levenshtein "ba" "ab" ∧ ("ab" : String) = "ab" :=
  ⟨(c6_levenshtein_properties "ab" "ba").1,
   (c6_levenshtein_properties "ab" "ab").2.2 (c6_levenshtein_properties "ab" "ab").2.1⟩

/-- C7 counterexample: the claim says every pair with one string longer than
40 characters yields `abs(lenA − lenB) + 5`; but for two *equal* 41-character
strings the `a === b` shortcut fires first and the function returns 0, not 5. -/
theorem c7_long_string_counterexample :
    40 < ("aaaaaaaaaaaaaaaaaaaaaaaaaaaaaaaaaaaaaaaaa" : String).length ∧
    levenshtein "aaaaaaaaaaaaaaaaaaaaaaaaaaaaaaaaaaaaaaaaa"
        "aaaaaaaaaaaaaaaaaaaaaaaaaaaaaaaaaaaaaaaaa"
      ≠ ((("aaaaaaaaaaaaaaaaaaaaaaaaaaaaaaaaaaaaaaaaa" : String).length : ℤ)
          - (("aaaaaaaaaaaaaaaaaaaaaaaaaaaaaaaaaaaaaaaaa" : String).length : ℤ)).natAbs + 5 := by
  constructor
  · decide
  · unfold levenshtein
    rw [if_pos rfl]
    decide

/-- C7 amended: for every pair of *distinct, non-empty* strings a and b where
a string is longer than 40 characters, the edit-distance function returns
`abs(length a − length b) + 5` instead of computing the full minimum edit
distance. -/
theorem c7_long_string_amended (a b : String) (hne : a ≠ b) (ha : a ≠ "") (hb : b ≠ "")
    (hlong : 40 < a.length ∨ 40 < b.length) :
    levenshtein a b = ((a.length : ℤ) - (b.length : ℤ)).natAbs + 5 := by
  unfold levenshtein
  rw [if_neg hne, if_neg (string_ne_empty_length ha), if_neg (string_ne_empty_length hb),
    if_pos hlong]

/-- C7 amended witness at a 41-char string versus `"b"`. -/
theorem c7_long_string_amended_witness :
    levenshtein "aaaaaaaaaaaaaaaaaaaaaaaaaaaaaaaaaaaaaaaaa" "b"
      = ((("aaaaaaaaaaaaaaaaaaaaaaaaaaaaaaaaaaaaaaaaa" : String).length : ℤ)
          - (("b" : String).length : ℤ)).natAbs + 5 :=
  c7_long_string_amended "aaaaaaaaaaaaaaaaaaaaaaaaaaaaaaaaaaaaaaaaa" "b"
    (by decide) (by decide) (by decide) (by decide)

/-! ## Hand-compiled regular expressions

Every quantifier in the source's regexes is applied to a single-character
class, so a greedy `cls+`/`cls*` can only succeed with the maximal run (any
shorter run leaves a next character that still belongs to `cls` while the
following regex item requires a character outside `cls`), and a lazy `.+?`
succeeds at the smallest viable length.  The trailing `(.*)` groups capture
the maximal run of non-line-terminator characters. -/

/-- Longest prefix of `cls`-characters and the remainder. -/
def runSplit (cls : Char → Bool) (s : List Char) : List Char × List Char :=
  (s.takeWhile cls, s.dropWhile cls)

/-- Match a literal, returning the remainder. -/
def litScan : List Char → List Char → Option (List Char)
  | [], s => some s
  | _ :: _, [] => none
  | c :: cs, d :: ds => if d = c then litScan cs ds else none

/-- Candidate splits for a greedy `(.*)`: all prefixes of the maximal
dot-character run, longest first (a JS greedy group backtracks from the
longest match downwards). -/
def dotSplitsDesc (s : List Char) : List (List Char × List Char) :=
  let n := (s.takeWhile isDotCh).length
  ((List.range (n + 1)).reverse).map (fun k => (s.take k, s.drop k))

/-- Candidate splits for a lazy `(.+?)`: non-empty prefixes of the maximal
dot-character run, shortest first. -/
def dotSplitsAsc1 (s : List Char) : List (List Char × List Char) :=
  let n := (s.takeWhile isDotCh).length
  (List.range' 1 n).map (fun k => (s.take k, s.drop k))

/-- `/^\[pid\s+(\d+)\]\s+(.*)/` — the optional pid envelope of a strace
line.  Returns (digit group, rest group). -/
def pidTagMatch (s : List Char) : Option (List Char × List Char) := do
  let s1 ← litScan "[pid".data s
  let (sp, s2) := runSplit isSpaceCh s1
  if sp = [] then none else
  let (ds, s3) := runSplit isDigitCh s2
  if ds = [] then none else
  let s4 ← litScan "]".data s3
  let (sp2, s5) := runSplit isSpaceCh s4
  if sp2 = [] then none else
  some (ds, s5.takeWhile isDotCh)

/-- `/^(\d+:\d+:\d+\.\d+)\s+(.*)/` — timestamp then body.  Returns
(timestamp group, body group). -/
def timeMatch (s : List Char) : Option (List Char × List Char) := do
  let (d1, s1) := runSplit isDigitCh s
  if d1 = [] then none else
  let s2 ← litScan ":".data s1
  let (d2, s3) := runSplit isDigitCh s2
  if d2 = [] then none else
  let s4 ← litScan ":".data s3
  let (d3, s5) := runSplit isDigitCh s4
  if d3 = [] then none else
  let s6 ← litScan ".".data s5
  let (d4, s7) := runSplit isDigitCh s6
  if d4 = [] then none else
  let (sp, s8) := runSplit isSpaceCh s7
  if sp = [] then none else
  some (d1 ++ ':' :: (d2 ++ ':' :: (d3 ++ '.' :: d4)), s8.takeWhile isDotCh)

/-- `/^<\.\.\.\s+(\w+)\s+resumed>(.*)/` — resumed-call body.  Returns
(call name, rest group). -/
def resumeMatch (s : List Char) : Option (List Char × List Char) := do
  let s1 ← litScan "<...".data s
  let (sp, s2) := runSplit isSpaceCh s1
  if sp = [] then none else
  let (w, s3) := runSplit isWordCh s2
  if w = [] then none else
  let (sp2, s4) := runSplit isSpaceCh s3
  if sp2 = [] then none else
  let s5 ← litScan "resumed>".data s4
  some (w, s5.takeWhile isDotCh)

/-- `/^(\w+)\((.*)\s+<unfinished \.\.\.>/` — unfinished-call body.  Returns
(call name, partial-args group). -/
def unfinMatch (s : List Char) : Option (List Char × List Char) := do
  let (w, s1) := runSplit isWordCh s
  if w = [] then none else
  let s2 ← litScan "(".data s1
  (dotSplitsDesc s2).findSome? (fun pre_suf => do
    let (sp, t1) := runSplit isSpaceCh pre_suf.2
    if sp = [] then none else
    let _ ← litScan "<unfinished ...>".data t1
    some (w, pre_suf.1))

/-- The tail `\s+=\s+(.+?)\s+<([\d\.]+)>` used after the closing paren by
both the standard-line regex and the resumed-line `endMatch` regex.  Returns
(result group, duration group). -/
def eqResultDurMatch (t : List Char) : Option (List Char × List Char) := do
  let (sp1, t1) := runSplit isSpaceCh t
  if sp1 = [] then none else
  let t2 ← litScan "=".data t1
  let (sp2, t3) := runSplit isSpaceCh t2
  if sp2 = [] then none else
  (dotSplitsAsc1 t3).findSome? (fun res_u => do
    let (sp3, u1) := runSplit isSpaceCh res_u.2
    if sp3 = [] then none else
    let u2 ← litScan "<".data u1
    let (dd, u3) := runSplit isDigitDotCh u2
    if dd = [] then none else
    let _ ← litScan ">".data u3
    some (res_u.1, dd))

/-- `/^(\w+)\((.*)\)\s+=\s+(\.+?)\s+<([\d\.]+)>/` — standard-call body
(`standardMatch`).  Returns (call name, args, result, duration). -/
def stdMatch (s : List Char) :
    Option (List Char × List Char × List Char × List Char) := do
  let (w, s1) := runSplit isWordCh s
  if w = [] then none else
  let s2 ← litScan "(".data s1
  (dotSplitsDesc s2).findSome? (fun pre_suf => do
    let t ← litScan ")".data pre_suf.2
    let (res, dd) ← eqResultDurMatch t
    some (w, pre_suf.1, res, dd))

/-- Anchored-at-start part of the unanchored `/(.*)\)\s+=\s+(.+?)\s+<([\d\.]+)>/`. -/
def endAnchored (s : List Char) : Option (List Char × List Char × List Char) :=
  (dotSplitsDesc s).findSome? (fun pre_suf => do
    let t ← litScan ")".data pre_suf.2
    let (res, dd) ← eqResultDurMatch t
    some (pre_suf.1, res, dd))

/-- The unanchored `endMatch` regex of the resumed-line case: leftmost start
position wins.  Returns (extra-args group, result group, duration group). -/
def endMatchSearch : List Char → Option (List Char × List Char × List Char)
  | [] => endAnchored []
  | c :: cs =>
    match endAnchored (c :: cs) with
    | some r => some r
    | none => endMatchSearch cs

/-- Capture groups of the perf-trace line regex. -/
structure PerfGroups where
  ts : List Char
  dur : List Char
  pname : List Char
  pid : List Char
  syscall : List Char
  args : List Char
  result : List Char
deriving DecidableEq

/-- `/^(\d+\.\d+)\s+\(\s*([\d\.]+)\s+ms\):\s+(.+?)\/(\d+)\s+(\w+)\((.*)\)\s+=\s+(.*)$/`
— the perf-trace line (`perfRegex`).  The final `$` demands that the last
`(.*)` reach the end of the string. -/
def perfMatch (s : List Char) : Option PerfGroups := do
  let (d1, s1) := runSplit isDigitCh s
  if d1 = [] then none else
  let s2 ← litScan ".".data s1
  let (d2, s3) := runSplit isDigitCh s2
  if d2 = [] then none else
  let (sp1, s4) := runSplit isSpaceCh s3
  if sp1 = [] then none else
  let s5 ← litScan "(".data s4
  let (_sp2, s6) := runSplit isSpaceCh s5
  let (dd, s7) := runSplit isDigitDotCh s6
  if dd = [] then none else
  let (sp3, s8) := runSplit isSpaceCh s7
  if sp3 = [] then none else
  let s9 ← litScan "ms):".data s8
  let (sp4, s10) := runSplit isSpaceCh s9
  if sp4 = [] then none else
  (dotSplitsAsc1 s10).findSome? (fun pn_u => do
    let u1 ← litScan "/".data pn_u.2
    let (pd, u2) := runSplit isDigitCh u1
    if pd = [] then none else
    let (sp5, u3) := runSplit isSpaceCh u2
    if sp5 = [] then none else
    let (w, u4) := runSplit isWordCh u3
    if w = [] then none else
    let u5 ← litScan "(".data u4
    (dotSplitsDesc u5).findSome? (fun ar_v => do
      let v1 ← litScan ")".data ar_v.2
      let (sp6, v2) := runSplit isSpaceCh v1
      if sp6 = [] then none else
      let v3 ← litScan "=".data v2
      let (sp7, v4) := runSplit isSpaceCh v3
      if sp7 = [] then none else
      if v4.all isDotCh then
        some ⟨d1 ++ '.' :: d2, dd, pn_u.1, pd, w, ar_v.1, v4⟩
      else none))

example : timeMatch "10:00:00.123456 read(3) = 0 <0.1>".data
    = some ("10:00:00.123456".data, "read(3) = 0 <0.1>".data) := by decide

example : stdMatch "read(3) = 0 <0.000046>".data
    = some ("read".data, "3".data, "0".data, "0.000046".data) := by decide

example : stdMatch "openat(AT_FDCWD, \"/lib/x.so\", O_RDONLY) = 3 <0.000101>".data
    = some ("openat".data, "AT_FDCWD, \"/lib/x.so\", O_RDONLY".data,
        "3".data, "0.000101".data) := by decide

example : unfinMatch "read(3, <unfinished ...>".data
    = some ("read".data, "3,".data) := by decide

example : resumeMatch "<... read resumed> \"data\", 4) = 4 <0.050000>".data
    = some ("read".data, " \"data\", 4) = 4 <0.050000>".data) := by decide

example : endMatchSearch " \"data\", 4) = 4 <0.050000>".data
    = some (" \"data\", 4".data, "4".data, "0.050000".data) := by decide

example : pidTagMatch "[pid 1234] 10:00:00.1 x() = 0 <0.1>".data
    = some ("1234".data, "10:00:00.1 x() = 0 <0.1>".data) := by decide

example : perfMatch "673025301.272 ( 0.002 ms): python/390838 brk() = 0x5fdfecd85000".data
    = some ⟨"673025301.272".data, "0.002".data, "python".data, "390838".data,
        "brk".data, "".data, "0x5fdfecd85000".data⟩ := by decide

/-! ## Number parsing and string utilities -/

def digitVal (c : Char) : ℕ := c.toNat - '0'.toNat

/-- JS `parseInt` on an all-digit string. -/
def natOfDigits (ds : List Char) : ℕ := ds.foldl (fun acc c => acc * 10 + digitVal c) 0

/-- Integer part, fractional digits and fractional length of the JS decimal
grammar (the ℕ-level half of `parseFloat`). -/
def pfParts (s : String) : ℕ × ℕ × ℕ :=
  let ir := runSplit isDigitCh s.data
  let fp : List Char :=
    match ir.2 with
    | '.' :: r2 => r2.takeWhile isDigitCh
    | _ => []
  (natOfDigits ir.1, natOfDigits fp, fp.length)

/-- JS `parseFloat`, restricted to the unsigned decimal grammar: the call
sites only apply it to strings matched by `[\d.]+` or `\d+\.\d+` (no sign,
no exponent).  A string with no leading digit and no digit directly after a
leading dot makes JS return `NaN`; this exact-rational model has no `NaN`
and yields 0 there, so it diverges from the program on such literals.
`parseFloatJS` below makes the `NaN` case explicit; the one claim whose
truth depends on duration values (C8) therefore carries an explicit
hypothesis confining it to literals where the two agree.  The timestamp
grammars (`\d+\.\d+` for variant B, `\d+:\d+:\d+\.\d+` split on `:` for
variant A) always put a digit first, so timestamps never reach the
divergent corner. -/
def parseFloatQ (s : String) : ℚ :=
  ((pfParts s).1 : ℚ) + ((pfParts s).2.1 : ℚ) / ((10 : ℚ) ^ (pfParts s).2.2)

/-- JS `parseFloat` on the `[\d.]+` character set with the `NaN` case made
explicit: `none` (JS `NaN`) when the literal neither starts with a digit nor
starts with a dot followed by a digit (e.g. `.`, `..`, `..5`); otherwise the
exact rational value, which is `parseFloatQ`. -/
def parseFloatJS (s : String) : Option ℚ :=
  match s.data with
  | [] => none
  | c :: rest =>
    if isDigitCh c then some (parseFloatQ s)
    else if c = '.' then
      match rest with
      | [] => none
      | d :: _ => if isDigitCh d then some (parseFloatQ s) else none
    else none

/-- JS `String.prototype.split(sep)` for a one-character separator. -/
def splitOnCh (ch : Char) : List Char → List (List Char)
  | [] => [[]]
  | c :: cs =>
    if c = ch then [] :: splitOnCh ch cs
    else
      match splitOnCh ch cs with
      | h :: t => (c :: h) :: t
      | [] => [[c]]

/-- The ℕ/String-level half of `parseTimestamp`: the `ts.split(':')`
destructuring into hours, minutes and the seconds string. -/
def tsParts (ts : String) : ℕ × ℕ × String :=
  let parts := splitOnCh ':' ts.data
  (natOfDigits (parts.getD 0 []), natOfDigits (parts.getD 1 []), ⟨parts.getD 2 []⟩)

/-- `parseTimestamp` of the source: `HH:MM:SS.uuuuuu` to milliseconds since
midnight (`(parseInt(h)*3600 + parseInt(m)*60 + parseFloat(s)) * 1000`). -/
def parseTimestamp (ts : String) : ℚ :=
  (((tsParts ts).1 : ℚ) * 3600 + ((tsParts ts).2.1 : ℚ) * 60
    + parseFloatQ (tsParts ts).2.2) * 1000

/-- `parsePerfTimestamp` of the source — note the `* 1.0`, not `* 1000`. -/
def parsePerfTimestamp (ts : String) : ℚ := parseFloatQ ts * 1

/-- JS `String.prototype.trim` (ASCII whitespace). -/
def jsTrim (s : String) : String :=
  ⟨((s.data.dropWhile isSpaceCh).reverse.dropWhile isSpaceCh).reverse⟩

/-- JS `content.split('\n')`. -/
def splitLines (s : String) : List String :=
  (splitOnCh '\n' s.data).map (fun l => ⟨l⟩)

/-! ## Data model (types.ts) -/

structure TraceLine where
  id : ℕ
  pid : ℕ
  timestamp : String
  timestampEpoch : ℚ
  syscall : String
  args : String
  result : String
  duration : ℚ
  userDiff : ℚ
  raw : String
deriving DecidableEq

structure SyscallInfo where
  count : ℕ
  totalDuration : ℚ
deriving DecidableEq

structure TraceStats where
  totalLines : ℕ
  totalWallTime : ℚ
  totalSysTime : ℚ
  totalUserTime : ℚ
  syscallCounts : List (String × SyscallInfo)
deriving DecidableEq

structure ParsedTrace where
  filename : String
  lines : List TraceLine
  stats : TraceStats
  pids : List ℕ
deriving DecidableEq

inductive RowType
  | matched
  | mismatch
  | insert
  | delete
  | gap
deriving DecidableEq

/-- DiffRow of types.ts: `rtype` is the `type` field of the TS interface. -/
structure DiffRow where
  rtype : RowType
  a : Option TraceLine
  b : Option TraceLine
  timeDiff : Option ℚ
  userDiffDelta : Option ℚ
deriving DecidableEq

inductive TraceMode
  | strace
  | perf
deriving DecidableEq

/-! ## Shared parser pieces -/

/-- Pointwise update of a `Map`-as-function. -/
def updFn {α : Type} (m : ℕ → Option α) (k : ℕ) (v : Option α) : ℕ → Option α :=
  fun k2 => if k2 = k then v else m k2

/-- JS `map.get(pid) || dflt` — both `undefined` and `0` are falsy. -/
def jsOr (v : Option ℚ) (dflt : ℚ) : ℚ :=
  match v with
  | none => dflt
  | some x => if x = 0 then dflt else x

/-- One `syscallCounts` record update (insertion-ordered, like a JS object). -/
def bumpCount (l : List (String × SyscallInfo)) (name : String) (dur : ℚ) :
    List (String × SyscallInfo) :=
  if l.any (fun e => e.1 = name) then
    l.map (fun e => if e.1 = name then (e.1, ⟨e.2.count + 1, e.2.totalDuration + dur⟩) else e)
  else l ++ [(name, ⟨1, dur⟩)]

/-- JS `Set.add` (insertion-ordered). -/
def addPid (l : List ℕ) (p : ℕ) : List ℕ := if p ∈ l then l else l ++ [p]

/-- Stats assembly shared by both parsers (the `reduce` calls and
`totalWallTime`). -/
def computeStats (lines : List TraceLine) (counts : List (String × SyscallInfo)) :
    TraceStats :=
  let totalSysTime := lines.foldl (fun acc l => acc + l.duration) 0
  let totalUserTime := lines.foldl (fun acc l => acc + l.userDiff) 0
  let totalWallTime : ℚ :=
    match lines.getLast? with
    | some last => last.timestampEpoch / 1000 + last.duration
    | none => 0
  ⟨lines.length, totalWallTime, totalSysTime, totalUserTime, counts⟩

def natLe (a b : ℕ) : Bool := decide (a ≤ b)

/-! ## Variant-B parser (`parsePerfTrace`) -/

structure PerfSt where
  lines : List TraceLine
  counts : List (String × SyscallInfo)
  pidsAcc : List ℕ
  lastEnd : ℕ → Option ℚ
  globalStart : ℚ
  hasStart : Bool

def perfStep (st : PerfSt) (idx : ℕ) (rawLine : String) : PerfSt :=
  let trimmed := jsTrim rawLine
  if trimmed.data = [] then st else
  match perfMatch trimmed.data with
  | none => st
  | some g =>
    let tsStr : String := ⟨g.ts⟩
    let durationMs := parseFloatQ ⟨g.dur⟩
    let pid := natOfDigits g.pid
    let syscall : String := ⟨g.syscall⟩
    let currentEpoch := parsePerfTimestamp tsStr
    let durationSec := durationMs / 1000
    let globalStart := if st.hasStart then st.globalStart else currentEpoch
    let prevEnd := jsOr (st.lastEnd pid) currentEpoch
    let userDiff := max 0 (currentEpoch - prevEnd)
    let lastEnd2 := updFn st.lastEnd pid (some (currentEpoch + durationMs))
    let ev : TraceLine := ⟨idx, pid, tsStr, currentEpoch - globalStart, syscall,
      ⟨g.args⟩, ⟨g.result⟩, durationSec, userDiff / 1000, rawLine⟩
    ⟨st.lines ++ [ev], bumpCount st.counts syscall durationSec,
      addPid st.pidsAcc pid, lastEnd2, globalStart, true⟩

def perfRun : PerfSt → ℕ → List String → PerfSt
  | st, _, [] => st
  | st, idx, r :: rs => perfRun (perfStep st idx r) (idx + 1) rs

def initPerfSt : PerfSt := ⟨[], [], [], fun _ => none, 0, false⟩

def parsePerfTrace (content filename : String) : ParsedTrace :=
  let st := perfRun initPerfSt 0 (splitLines content)
  ⟨filename, st.lines, computeStats st.lines st.counts, st.pidsAcc.mergeSort natLe⟩

/-! ## Variant-A parser (`parseStrace`) -/

structure PendingRec where
  timestampStr : String
  startEpoch : ℚ
  syscall : String
  startArgs : String
  rawStart : String
deriving DecidableEq

structure StraceSt where
  lines : List TraceLine
  counts : List (String × SyscallInfo)
  pidsAcc : List ℕ
  lastEnd : ℕ → Option ℚ
  pending : ℕ → Option PendingRec
  globalStart : ℚ
  hasStart : Bool

/-- Pid-envelope extraction (`pid = 0` when no `[pid N]` tag is present). -/
def stracePidRest (s : List Char) : ℕ × List Char :=
  match pidTagMatch s with
  | some dsr => (natOfDigits dsr.1, dsr.2)
  | none => (0, s)

/-- The part of the per-line handler after the process id has been recorded
into the pid set (the JS code does `uniquePids.add(pid)` first and only then
looks at the timestamp and body). -/
def straceBody (st : StraceSt) (idx : ℕ) (rawLine : String) (pid : ℕ)
    (rest : List Char) : StraceSt :=
  match timeMatch rest with
  | none => st
  | some tb =>
    let timestampStr : String := ⟨tb.1⟩
    let body := tb.2
    let currentEpoch := parseTimestamp timestampStr
    let globalStart := if st.hasStart then st.globalStart else currentEpoch
    let lastEnd1 :=
      match st.lastEnd pid with
      | none => updFn st.lastEnd pid (some currentEpoch)
      | some _ => st.lastEnd
    match resumeMatch body with
    | some nr =>
      let syscallName : String := ⟨nr.1⟩
      (match st.pending pid with
       | some pending =>
         if pending.syscall = syscallName then
           match endMatchSearch nr.2 with
           | some erd =>
             let fullRaw := pending.rawStart ++ " ... " ++ rawLine
             let duration := parseFloatQ ⟨erd.2.2⟩
             let fullArgs := jsTrim (pending.startArgs ++ ⟨erd.1⟩)
             let prevEnd := jsOr (lastEnd1 pid) pending.startEpoch
             let userDiff := max 0 (pending.startEpoch - prevEnd)
             let lastEnd2 := updFn lastEnd1 pid (some currentEpoch)
             let ev : TraceLine := ⟨idx, pid, pending.timestampStr,
               pending.startEpoch - globalStart, syscallName, fullArgs,
               ⟨erd.2.1⟩, duration, userDiff / 1000, fullRaw⟩
             ⟨st.lines ++ [ev], bumpCount st.counts syscallName duration, st.pidsAcc,
               lastEnd2, updFn st.pending pid none, globalStart, true⟩
           | none =>
             ⟨st.lines, st.counts, st.pidsAcc, lastEnd1, st.pending, globalStart, true⟩
         else ⟨st.lines, st.counts, st.pidsAcc, lastEnd1, st.pending, globalStart, true⟩
       | none => ⟨st.lines, st.counts, st.pidsAcc, lastEnd1, st.pending, globalStart, true⟩)
    | none =>
    match unfinMatch body with
    | some na =>
      ⟨st.lines, st.counts, st.pidsAcc, lastEnd1,
        updFn st.pending pid (some ⟨timestampStr, currentEpoch, ⟨na.1⟩, ⟨na.2⟩, rawLine⟩),
        globalStart, true⟩
    | none =>
    match stdMatch body with
    | some sard =>
      let syscall : String := ⟨sard.1⟩
      let duration := parseFloatQ ⟨sard.2.2.2⟩
      let prevEnd := jsOr (lastEnd1 pid) currentEpoch
      let userDiff := max 0 (currentEpoch - prevEnd)
      let lastEnd2 := updFn lastEnd1 pid (some (currentEpoch + duration * 1000))
      let ev : TraceLine := ⟨idx, pid, timestampStr, currentEpoch - globalStart,
        syscall, ⟨sard.2.1⟩, ⟨sard.2.2.1⟩, duration, userDiff / 1000, rawLine⟩
      ⟨st.lines ++ [ev], bumpCount st.counts syscall duration, st.pidsAcc, lastEnd2,
        st.pending, globalStart, true⟩
    | none => ⟨st.lines, st.counts, st.pidsAcc, lastEnd1, st.pending, globalStart, true⟩

def straceStep (st : StraceSt) (idx : ℕ) (rawLine : String) : StraceSt :=
  let trimmed := jsTrim rawLine
  if trimmed.data = [] then st else
  let pr := stracePidRest trimmed.data
  straceBody
    ⟨st.lines, st.counts, addPid st.pidsAcc pr.1, st.lastEnd, st.pending,
      st.globalStart, st.hasStart⟩
    idx rawLine pr.1 pr.2

def straceRun : StraceSt → ℕ → List String → StraceSt
  | st, _, [] => st
  | st, idx, r :: rs => straceRun (straceStep st idx r) (idx + 1) rs

def initStraceSt : StraceSt := ⟨[], [], [], fun _ => none, fun _ => none, 0, false⟩

def traceLineLe (a b : TraceLine) : Bool := decide (a.timestampEpoch ≤ b.timestampEpoch)

def parseStrace (content filename : String) : ParsedTrace :=
  let st := straceRun initStraceSt 0 (splitLines content)
  let sorted := st.lines.mergeSort traceLineLe
  ⟨filename, sorted, computeStats sorted st.counts, st.pidsAcc.mergeSort natLe⟩

def parseTrace (content filename : String) (mode : TraceMode) : ParsedTrace :=
  match mode with
  | TraceMode.perf => parsePerfTrace content filename
  | TraceMode.strace => parseStrace content filename

/-- Leftmost match of `/"([^"]*\/[^"]*)"/`: scan for a quote whose segment up
to the *next* quote contains a slash; the group is that whole segment. -/
def pathTok : List Char → Option (List Char)
  | [] => none
  | c :: rest =>
    if c = '"' then
      let seg := rest.takeWhile (fun d => !(d = '"'))
      let rest2 := rest.dropWhile (fun d => !(d = '"'))
      if rest2 ≠ [] ∧ '/' ∈ seg then some seg
      else pathTok rest
    else pathTok rest

/-- The prefix-comparison loop (`for i < checkLen: if a[i]===b[i] common++ else break`). -/
def commonPfxLen : List Char → List Char → ℕ → ℕ
  | a :: as, b :: bs, k + 1 => if a = b then 1 + commonPfxLen as bs k else 0
  | _, _, _ => 0

def getArgSimilarity (a b : String) : ℚ :=
  if a = b then 1
  else if a = "" ∨ b = "" then 0
  else
    match pathTok a.data, pathTok b.data with
    | some pA, some pB =>
      let partsA := splitOnCh '/' pA
      let partsB := splitOnCh '/' pB
      let fileA := partsA.getLastD []
      let fileB := partsB.getLastD []
      if fileA = fileB ∧ 0 < fileA.length then
        let dirA := if 1 < partsA.length then partsA.getD (partsA.length - 2) [] else []
        let dirB := if 1 < partsB.length then partsB.getD (partsB.length - 2) [] else []
        if dirA = dirB then 1 else 9 / 10
      else
        let dist := levenshtein ⟨fileA⟩ ⟨fileB⟩
        if dist ≤ 2 ∧ 3 < fileA.length then 7 / 10
        else 1 / 5
    | _, _ =>
      let minLen := min a.length b.length
      let maxLen := max a.length b.length
      if maxLen = 0 then 1
      else
        let checkLen := min minLen 30
        let common := commonPfxLen a.data b.data checkLen
        let prefScore : ℚ := (common : ℚ) / ((max checkLen 1 : ℕ) : ℚ)
        let lenScore : ℚ := (minLen : ℚ) / (maxLen : ℚ)
        prefScore * (7 / 10) + lenScore * (3 / 10)

/-! ## Pairwise call score (`calculateScore`) -/

def SCORE_MATCH : ℚ := 10

def SCORE_APPROX : ℚ := 6

def SCORE_MISMATCH : ℚ := -10

def SCORE_GAP : ℚ := -4

def MAX_ARG_BONUS : ℚ := 5

/-- Needle matches at the head of the haystack. -/
def litAt : List Char → List Char → Bool
  | [], _ => true
  | _ :: _, [] => false
  | n :: ns, h :: hs => n = h && litAt ns hs

/-- JS `hay.includes(needle)`. -/
def containsSub (needle : List Char) : List Char → Bool
  | [] => litAt needle []
  | c :: t => litAt needle (c :: t) || containsSub needle t

def calculateScore (a b : TraceLine) : ℚ :=
  if a.syscall = b.syscall then
    SCORE_MATCH + getArgSimilarity a.args b.args * MAX_ARG_BONUS
  else
    let dist := levenshtein a.syscall b.syscall
    if dist ≤ 3 ∨ containsSub b.syscall.data a.syscall.data
        ∨ containsSub a.syscall.data b.syscall.data then
      SCORE_APPROX + getArgSimilarity a.args b.args * (MAX_ARG_BONUS / 2)
    else SCORE_MISMATCH

/-! ## Banded aligner (`alignTraces`) -/

structure AlignSt where
  scores : ℕ × ℕ → Option ℚ
  dirs : ℕ × ℕ → Option ℕ

def upd2 {α : Type} (m : ℕ × ℕ → Option α) (k : ℕ × ℕ) (v : α) : ℕ × ℕ → Option α :=
  fun k2 => if k2 = k then some v else m k2

/-- The `getScore` closure: boundary rows/columns are answered by formula,
everything else by map lookup (`?? -Infinity`); `none` stands for −∞. -/
def getScoreFn (scores : ℕ × ℕ → Option ℚ) (i j : ℕ) : Option ℚ :=
  if i = 0 ∧ j = 0 then some 0
  else if i = 0 then some ((j : ℚ) * SCORE_GAP)
  else if j = 0 then some ((i : ℚ) * SCORE_GAP)
  else scores (i, j)

/-- `x > y` over ℚ ∪ {−∞}. -/
def optGt : Option ℚ → Option ℚ → Bool
  | some x, some y => decide (y < x)
  | some _, none => true
  | none, _ => false

/-- `x ≥ y` over ℚ ∪ {−∞} (note −∞ ≥ −∞ is true, as in JS). -/
def optGe : Option ℚ → Option ℚ → Bool
  | some x, some y => decide (y ≤ x)
  | some _, none => true
  | none, none => true
  | none, some _ => false

/-- Stand-in for the out-of-range JS index `listA[i-1]`; every access in the
aligner is guarded by `0 < i` with `i ≤ length`, so it is never consulted. -/
def dummyLine : TraceLine := ⟨0, 0, "", 0, "", "", "", 0, 0, ""⟩

/-- The JS best-move selection: `maxScore/dir` start as the left candidate
with direction 3, are replaced by the up candidate when strictly greater
(direction 2), and by the diagonal candidate when ≥ the current best
(direction 1); the result is recorded only when the final best is > −∞. -/
def jsSelect (left up diag : Option ℚ) : Option (ℚ × ℕ) :=
  let m1 := if optGt up left then up else left
  let d1 : ℕ := if optGt up left then 2 else 3
  let m2 := if optGe diag m1 then diag else m1
  let d2 : ℕ := if optGe diag m1 then 1 else d1
  match m2 with
  | some v => some (v, d2)
  | none => none

/-- One body of the doubly-nested DP fill loop. -/
def fillCell (la lb : List TraceLine) (st : AlignSt) (i j : ℕ) : AlignSt :=
  if i = 0 ∧ j = 0 then ⟨upd2 st.scores (0, 0) 0, st.dirs⟩ else
  let left : Option ℚ :=
    if 0 < j then (getScoreFn st.scores i (j - 1)).map (fun v => v + SCORE_GAP) else none
  let up : Option ℚ :=
    if 0 < i then (getScoreFn st.scores (i - 1) j).map (fun v => v + SCORE_GAP) else none
  let diag : Option ℚ :=
    if 0 < i ∧ 0 < j then
      (getScoreFn st.scores (i - 1) (j - 1)).map
        (fun v => v + calculateScore (la.getD (i - 1) dummyLine) (lb.getD (j - 1) dummyLine))
    else none
  match jsSelect left up diag with
  | some vd => ⟨upd2 st.scores (i, j) vd.1, upd2 st.dirs (i, j) vd.2⟩
  | none => st

lemma jsSelect_dir_cases (left up diag : Option ℚ) (v : ℚ) (d : ℕ)
    (h : jsSelect left up diag = some (v, d)) :
    (d = 1 ∧ diag ≠ none) ∨ (d = 2 ∧ up ≠ none) ∨ (d = 3 ∧ left ≠ none) := by
  unfold jsSelect at h
  dsimp only at h
  by_cases hge : optGe diag (if optGt up left = true then up else left) = true
  · rw [if_pos hge, if_pos hge] at h
    rcases diag with _ | dv
    · exact Option.noConfusion h
    · injection h with h1
      injection h1 with hv hd
      subst hd
      exact Or.inl ⟨rfl, fun hc => Option.noConfusion hc⟩
  · rw [if_neg hge, if_neg hge] at h
    by_cases hgt : optGt up left = true
    · rw [if_pos hgt, if_pos hgt] at h
      rcases up with _ | uv
      · exact Option.noConfusion h
      · injection h with h1
        injection h1 with hv hd
        subst hd
        exact Or.inr (Or.inl ⟨rfl, fun hc => Option.noConfusion hc⟩)
    · rw [if_neg hgt, if_neg hgt] at h
      rcases left with _ | lv
      · exact Option.noConfusion h
      · injection h with h1
        injection h1 with hv hd
        subst hd
        exact Or.inr (Or.inr ⟨rfl, fun hc => Option.noConfusion hc⟩)

/-- `K = Math.max(200, Math.abs(n - m) + 100)`. -/
def bandK (n m : ℕ) : ℕ := max 200 ((if n ≤ m then m - n else n - m) + 100)

/-- `Math.floor(i * (m / n))` in exact arithmetic (only used when `n ≠ 0`). -/
def rowCenter (n m i : ℕ) : ℕ := i * m / n

/-- Inner fill loop: `for (j = startJ; j <= endJ; j++)`, as (start, count). -/
def fillRowFrom (la lb : List TraceLine) (i : ℕ) : ℕ → ℕ → AlignSt → AlignSt
  | _, 0, st => st
  | j, cnt + 1, st => fillRowFrom la lb i (j + 1) cnt (fillCell la lb st i j)

/-- Outer fill loop: `for (i = 0; i <= n; i++)`.  When `n = 0`, JS computes
`center = Math.floor(i * (m / 0)) = NaN` and the inner loop over
`[NaN, NaN]` does not execute at all. -/
def fillRowsFrom (la lb : List TraceLine) (n m K : ℕ) : ℕ → ℕ → AlignSt → AlignSt
  | _, 0, st => st
  | i, cnt + 1, st =>
    let st2 :=
      if n = 0 then st
      else
        let c := rowCenter n m i
        let sj := c - K
        let ej := min m (c + K)
        fillRowFrom la lb i sj (ej + 1 - sj) st
    fillRowsFrom la lb n m K (i + 1) cnt st2

def initAlignSt : AlignSt := ⟨fun _ => none, fun _ => none⟩

def alignFill (la lb : List TraceLine) : AlignSt :=
  fillRowsFrom la lb la.length lb.length (bandK la.length lb.length) 0
    (la.length + 1) initAlignSt

def matchedRow (a b : TraceLine) : DiffRow :=
  ⟨RowType.matched, some a, some b, some (a.duration - b.duration),
    some (a.userDiff - b.userDiff)⟩

def mismatchRow (a b : TraceLine) : DiffRow :=
  ⟨RowType.mismatch, some a, some b, none, none⟩

def insertRow (b : TraceLine) : DiffRow := ⟨RowType.insert, none, some b, none, none⟩

def deleteRow (a : TraceLine) : DiffRow := ⟨RowType.delete, some a, none, none, none⟩

/-- Traceback loop.  Rows are prepended in JS (`rows.unshift`), which is the
`++ [row]` on the recursive result here.  The fuel argument is `i + j` at the
top call; every iteration decreases `i + j` (given the direction-safety
invariant proved below), so the fuel never runs out. -/
def traceback (la lb : List TraceLine) (dirs : ℕ × ℕ → Option ℕ) :
    ℕ → ℕ → ℕ → List DiffRow
  | 0, _, _ => []
  | fuel + 1, i, j =>
    if i = 0 ∧ j = 0 then [] else
    match dirs (i, j) with
    | none =>
      if 0 < i ∧ 0 < j then
        traceback la lb dirs fuel (i - 1) (j - 1)
          ++ [mismatchRow (la.getD (i - 1) dummyLine) (lb.getD (j - 1) dummyLine)]
      else if 0 < i then
        traceback la lb dirs fuel (i - 1) j ++ [deleteRow (la.getD (i - 1) dummyLine)]
      else
        traceback la lb dirs fuel i (j - 1) ++ [insertRow (lb.getD (j - 1) dummyLine)]
    | some d =>
      if d = 1 then
        let a := la.getD (i - 1) dummyLine
        let b := lb.getD (j - 1) dummyLine
        let s := calculateScore a b
        traceback la lb dirs fuel (i - 1) (j - 1)
          ++ [if 0 < s then matchedRow a b else mismatchRow a b]
      else if d = 2 then
        traceback la lb dirs fuel (i - 1) j ++ [deleteRow (la.getD (i - 1) dummyLine)]
      else
        traceback la lb dirs fuel i (j - 1) ++ [insertRow (lb.getD (j - 1) dummyLine)]

def alignTraces (traceA traceB : ParsedTrace) : List DiffRow :=
  let la := traceA.lines
  let lb := traceB.lines
  let st := alignFill la lb
  traceback la lb st.dirs (la.length + lb.length) la.length lb.length

/-- The optimal total score the banded dynamic program attaches to the final
cell `(n, m)` (via the same `getScore` the traceback would consult). -/
def bandedTotalScore (traceA traceB : ParsedTrace) : Option ℚ :=
  getScoreFn (alignFill traceA.lines traceB.lines).scores
    traceA.lines.length traceB.lines.length

/-- Modelled from the spec (§4.7, the reference side of refinement claim C5):
the full *unbanded* global-alignment dynamic program over the same sequences
and the same scoring functions (`calculateScore` for diagonal steps, the −4
gap penalty for horizontal/vertical steps). -/
def fullScore (la lb : List TraceLine) : ℕ → ℕ → ℚ
  | 0, 0 => 0
  | i + 1, 0 => (((i : ℕ) + 1 : ℕ) : ℚ) * SCORE_GAP
  | 0, j + 1 => (((j : ℕ) + 1 : ℕ) : ℚ) * SCORE_GAP
  | i + 1, j + 1 =>
    max (fullScore la lb i j
          + calculateScore (la.getD i dummyLine) (lb.getD j dummyLine))
      (max (fullScore la lb i (j + 1) + SCORE_GAP)
        (fullScore la lb (i + 1) j + SCORE_GAP))

/-! ## C1 — the variant-B timestamp normalizer -/

/-- C1 (code bug).  The spec says the perf-trace normalizer converts the
absolute seconds value to *milliseconds* by multiplying by 1000; the code's
`parsePerfTimestamp` multiplies by `1.0` instead, although its call sites
annotate the result as milliseconds and divide it by 1000 again for the wall
time.  On two accepted lines with timestamps 100.000000 s and 101.500000 s
the second event's stored relative start is `3/2` (seconds), not the `1500`
(milliseconds) the claim requires. -/
theorem c1_perf_timestamp_not_milliseconds :
    ((parsePerfTrace
        ("100.000000 ( 1.000 ms): app/42 openat(x) = 3" ++ "\n"
          ++ "101.500000 ( 2.000 ms): app/42 openat(y) = 3") "t").lines.map
      (fun e => e.timestampEpoch)) = [0, 3 / 2] ∧ ((3 : ℚ) / 2) ≠ 1500 := by
  constructor
  · have hsplit : splitLines
        ("100.000000 ( 1.000 ms): app/42 openat(x) = 3" ++ "\n"
          ++ "101.500000 ( 2.000 ms): app/42 openat(y) = 3")
        = ["100.000000 ( 1.000 ms): app/42 openat(x) = 3",
           "101.500000 ( 2.000 ms): app/42 openat(y) = 3"] := by decide
    have ht1 : jsTrim "100.000000 ( 1.000 ms): app/42 openat(x) = 3"
        = "100.000000 ( 1.000 ms): app/42 openat(x) = 3" := by decide
    have ht2 : jsTrim "101.500000 ( 2.000 ms): app/42 openat(y) = 3"
        = "101.500000 ( 2.000 ms): app/42 openat(y) = 3" := by decide
    have hm1 : perfMatch "100.000000 ( 1.000 ms): app/42 openat(x) = 3".data
        = some ⟨"100.000000".data, "1.000".data, "app".data, "42".data,
            "openat".data, "x".data, "3".data⟩ := by decide
    have hm2 : perfMatch "101.500000 ( 2.000 ms): app/42 openat(y) = 3".data
        = some ⟨"101.500000".data, "2.000".data, "app".data, "42".data,
            "openat".data, "y".data, "3".data⟩ := by decide
    have hp1 : pfParts "100.000000" = (100, 0, 6) := by decide
    have hp2 : pfParts "1.000" = (1, 0, 3) := by decide
    have hp3 : pfParts "101.500000" = (101, 500000, 6) := by decide
    have hp4 : pfParts "2.000" = (2, 0, 3) := by decide
    have hn1 : natOfDigits "42".data = 42 := by decide
    norm_num +decide [parsePerfTrace, perfRun, perfStep, initPerfSt, hsplit, ht1, ht2,
      hm1, hm2, parsePerfTimestamp, parseFloatQ, hp1, hp2, hp3, hp4, hn1,
      jsOr, updFn, addPid, bumpCount]
  · norm_num

/-! ## Step-level facts about the variant-A parser -/

lemma straceBody_pidsAcc (st : StraceSt) (idx : ℕ) (raw : String) (pid : ℕ)
    (rest : List Char) : (straceBody st idx raw pid rest).pidsAcc = st.pidsAcc := by
  unfold straceBody
  repeat' (first | split | dsimp only)

lemma straceBody_lines_cases (st : StraceSt) (idx : ℕ) (raw : String) (pid : ℕ)
    (rest : List Char) :
    (straceBody st idx raw pid rest).lines = st.lines ∨
      ∃ ev, (straceBody st idx raw pid rest).lines = st.lines ++ [ev] := by
  unfold straceBody
  repeat' (first | split | dsimp only)
  all_goals first
    | exact Or.inl rfl
    | exact Or.inr ⟨_, rfl⟩

/-- Process id that a non-empty line records into the observed pid set. -/
def straceLinePid (raw : String) : ℕ := (stracePidRest (jsTrim raw).data).1

lemma straceStep_pidsAcc (st : StraceSt) (idx : ℕ) (raw : String) :
    (straceStep st idx raw).pidsAcc
      = if (jsTrim raw).data = [] then st.pidsAcc
        else addPid st.pidsAcc (straceLinePid raw) := by
  by_cases h : (jsTrim raw).data = []
  · simp [straceStep, h]
  · simp [straceStep, h, straceBody_pidsAcc, straceLinePid]

lemma addPid_nodup {l : List ℕ} {p : ℕ} (h : l.Nodup) : (addPid l p).Nodup := by
  unfold addPid
  split
  · exact h
  · rename_i hp
    simp [List.nodup_append, h, hp]

lemma addPid_mem_self (l : List ℕ) (p : ℕ) : p ∈ addPid l p := by
  unfold addPid
  split
  · assumption
  · simp

lemma addPid_mem_mono {l : List ℕ} {q : ℕ} (h : q ∈ l) (p : ℕ) : q ∈ addPid l p := by
  unfold addPid
  split
  · exact h
  · simp [h]

lemma straceStep_pids_mono {st : StraceSt} {idx : ℕ} {raw : String} {q : ℕ}
    (h : q ∈ st.pidsAcc) : q ∈ (straceStep st idx raw).pidsAcc := by
  rw [straceStep_pidsAcc]
  split
  · exact h
  · exact addPid_mem_mono h _

lemma straceStep_pids_self (st : StraceSt) (idx : ℕ) (raw : String)
    (h : (jsTrim raw).data ≠ []) : straceLinePid raw ∈ (straceStep st idx raw).pidsAcc := by
  rw [straceStep_pidsAcc, if_neg h]
  exact addPid_mem_self _ _

lemma straceRun_pids_mono : ∀ (ls : List String) (st : StraceSt) (idx q : ℕ),
    q ∈ st.pidsAcc → q ∈ (straceRun st idx ls).pidsAcc := by
  intro ls
  induction ls with
  | nil => intro st idx q h; exact h
  | cons r rs ih =>
    intro st idx q h
    exact ih _ _ _ (straceStep_pids_mono h)

lemma straceRun_pids_of_mem : ∀ (ls : List String) (st : StraceSt) (idx : ℕ)
    (raw : String), raw ∈ ls → (jsTrim raw).data ≠ [] →
    straceLinePid raw ∈ (straceRun st idx ls).pidsAcc := by
  intro ls
  induction ls with
  | nil => intro st idx raw h; exact absurd h (List.not_mem_nil raw)
  | cons r rs ih =>
    intro st idx raw hmem hne
    rcases List.mem_cons.mp hmem with heq | htail
    · subst heq
      exact straceRun_pids_mono rs _ _ _ (straceStep_pids_self st idx raw hne)
    · exact ih _ _ raw htail hne

lemma straceRun_pids_nodup : ∀ (ls : List String) (st : StraceSt) (idx : ℕ),
    st.pidsAcc.Nodup → ((straceRun st idx ls).pidsAcc).Nodup := by
  intro ls
  induction ls with
  | nil => intro st idx h; exact h
  | cons r rs ih =>
    intro st idx h
    apply ih
    rw [straceStep_pidsAcc]
    split
    · exact h
    · exact addPid_nodup h

lemma natLe_trans : ∀ (a b c : ℕ), natLe a b = true → natLe b c = true → natLe a c = true := by
  intro a b c hab hbc
  simp [natLe] at *
  omega

lemma natLe_total : ∀ (a b : ℕ), (natLe a b || natLe b a) = true := by
  intro a b
  simp [natLe]
  omega

lemma pairwise_lt_of_le_nodup {l : List ℕ}
    (hs : List.Pairwise (fun a b => natLe a b = true) l) (hn : l.Nodup) :
    List.Pairwise (fun a b => a < b) l := by
  have hn' : List.Pairwise (fun a b : ℕ => a ≠ b) l := hn
  refine (hs.and hn').imp ?_
  intro a b hab
  have h1 : a ≤ b := by simpa [natLe] using hab.1
  exact lt_of_le_of_ne h1 hab.2

/-- C10.  For every input string, the process-id list of the ParsedTrace
returned by the variant-A parser is strictly increasing (hence
duplicate-free); any line with non-empty trimmed text records its process id
(0 when no `[pid N]` prefix is present) into the observed set even when the
line contributes no event; and the pid list may indeed contain a process id
for which no CallEvent was emitted. -/
theorem c10_pid_tracking :
    (∀ content fn, List.Pairwise (fun a b => a < b) (parseStrace content fn).pids)
    ∧ (∀ content fn raw, raw ∈ splitLines content → (jsTrim raw).data ≠ [] →
        straceLinePid raw ∈ (parseStrace content fn).pids)
    ∧ (∃ content fn p, p ∈ (parseStrace content fn).pids
        ∧ ∀ e ∈ (parseStrace content fn).lines, e.pid ≠ p) := by
  refine ⟨?_, ?_, ?_⟩
  · intro content fn
    have hnd : ((straceRun initStraceSt 0 (splitLines content)).pidsAcc).Nodup :=
      straceRun_pids_nodup _ _ _ (by simp [initStraceSt])
    have hsorted := List.sorted_mergeSort natLe_trans natLe_total
      ((straceRun initStraceSt 0 (splitLines content)).pidsAcc)
    have hnd2 : (((straceRun initStraceSt 0 (splitLines content)).pidsAcc).mergeSort natLe).Nodup :=
      (List.mergeSort_perm ((straceRun initStraceSt 0 (splitLines content)).pidsAcc)
        natLe).nodup_iff.mpr hnd
    exact pairwise_lt_of_le_nodup hsorted hnd2
  · intro content fn raw hmem hne
    show straceLinePid raw ∈ ((straceRun initStraceSt 0 (splitLines content)).pidsAcc).mergeSort natLe
    rw [List.mem_mergeSort]
    exact straceRun_pids_of_mem _ _ _ raw hmem hne
  · refine ⟨"[pid 7] garbage", "f", 7, ?_, ?_⟩
    · show 7 ∈ ((straceRun initStraceSt 0 (splitLines "[pid 7] garbage")).pidsAcc).mergeSort natLe
      rw [List.mem_mergeSort]
      have : (straceRun initStraceSt 0 (splitLines "[pid 7] garbage")).pidsAcc = [7] := by decide
      rw [this]
      simp
    · intro e hmem
      exfalso
      have hlines : (straceRun initStraceSt 0 (splitLines "[pid 7] garbage")).lines = [] := by decide
      have : (parseStrace "[pid 7] garbage" "f").lines = [] := by
        show ((straceRun initStraceSt 0 (splitLines "[pid 7] garbage")).lines).mergeSort traceLineLe = []
        rw [hlines]
        simp
      rw [this] at hmem
      exact List.not_mem_nil e hmem

/-- C10 witness: the universally-quantified parts applied at a concrete
input, with both hypotheses of the membership part discharged there. -/
theorem c10_pid_tracking_witness :
    List.Pairwise (fun a b => a < b) (parseStrace "[pid 9] x" "f").pids
    ∧ straceLinePid "[pid 9] x" ∈ (parseStrace "[pid 9] x" "f").pids :=
  ⟨c10_pid_tracking.1 "[pid 9] x" "f",
   c10_pid_tracking.2.1 "[pid 9] x" "f" "[pid 9] x" (by decide) (by decide)⟩

/-! ## C4 — resumed-call reconstruction -/

/-- C4 counterexample: the claim says the emitted event's argument text is
the *concatenation* of the partial and resumed argument fragments, but the
source applies `.trim()` to that concatenation.  Here the fragments are
`"3,"` and `" x "`; their concatenation is `"3, x "` (trailing space), while
the parser stores the trimmed `"3, x"`. -/
theorem c4_trim_counterexample :
    ((parseStrace ("10:00:00.000000 read(3, <unfinished ...>" ++ "\n"
        ++ "10:00:00.100000 <... read resumed> x ) = 0 <0.100000>") "f").lines.map
      (fun e => e.args)) = ["3, x"]
    ∧ ("3, x" : String) ≠ "3," ++ " x " := by
  constructor
  · have hlen : (straceRun initStraceSt 0
        (splitLines ("10:00:00.000000 read(3, <unfinished ...>" ++ "\n"
          ++ "10:00:00.100000 <... read resumed> x ) = 0 <0.100000>"))).lines.length = 1 := by
      decide
    have hargs : ((straceRun initStraceSt 0
        (splitLines ("10:00:00.000000 read(3, <unfinished ...>" ++ "\n"
          ++ "10:00:00.100000 <... read resumed> x ) = 0 <0.100000>"))).lines.map
        (fun e => e.args)) = ["3, x"] := by decide
    obtain ⟨e, he⟩ := List.length_eq_one.mp hlen
    rw [he] at hargs
    simp only [List.map_cons, List.map_nil, List.cons.injEq, and_true] at hargs
    show (((straceRun initStraceSt 0 (splitLines _)).lines).mergeSort traceLineLe).map
        (fun e => e.args) = _
    rw [he]
    simp [hargs]
  · decide

def c4Pending : PendingRec :=
  ⟨"10:00:00.000000", 36000000, "read", "3,", "10:00:00.000000 read(3, <unfinished ...>"⟩

def c4St : StraceSt :=
  ⟨[], [], [], fun _ => none, updFn (fun _ => none) 0 (some c4Pending), 36000000, true⟩

/-- C4 amended.  For a variant-A line whose body is a resumed line (after
optional pid-envelope and timestamp extraction), with a pending record for
the same process id whose stored call name matches: the parser emits exactly
one CallEvent whose call name is the stored name, whose recorded start time
(both the timestamp text and the relative epoch) is the unfinished line's
time — not the resume time —, whose argument text is the *trimmed*
concatenation of the partial and resumed argument fragments, whose duration
is the value inside the resumed line's angle brackets, and whose raw text
concatenates both source lines; the pending record is consumed.  A resumed
line with no pending record for the process id, or with a differing call
name, emits no event. -/
theorem c4_resumed_call_reconstruction (st : StraceSt) (idx : ℕ) (raw : String)
    (pid : ℕ) (rest ts body name resumeRest : List Char)
    (hne : (jsTrim raw).data ≠ [])
    (hpr : stracePidRest (jsTrim raw).data = (pid, rest))
    (htm : timeMatch rest = some (ts, body))
    (hrm : resumeMatch body = some (name, resumeRest)) :
    (∀ p extra res dur, st.pending pid = some p → p.syscall = ⟨name⟩ →
      endMatchSearch resumeRest = some (extra, res, dur) →
      (straceStep st idx raw).lines
        = st.lines ++ [⟨idx, pid, p.timestampStr,
            p.startEpoch - (if st.hasStart then st.globalStart else parseTimestamp ⟨ts⟩),
            ⟨name⟩, jsTrim (p.startArgs ++ ⟨extra⟩), ⟨res⟩, parseFloatQ ⟨dur⟩,
            max 0 (p.startEpoch
              - jsOr (some ((st.lastEnd pid).getD (parseTimestamp ⟨ts⟩))) p.startEpoch)
              / 1000,
            p.rawStart ++ " ... " ++ raw⟩]
        ∧ (straceStep st idx raw).pending pid = none)
    ∧ (st.pending pid = none → (straceStep st idx raw).lines = st.lines)
    ∧ (∀ p, st.pending pid = some p → p.syscall ≠ ⟨name⟩ →
        (straceStep st idx raw).lines = st.lines) := by
  have hstep : straceStep st idx raw
      = straceBody
          ⟨st.lines, st.counts, addPid st.pidsAcc pid, st.lastEnd, st.pending,
            st.globalStart, st.hasStart⟩ idx raw pid rest := by
    unfold straceStep
    dsimp only
    rw [if_neg hne, hpr]
  refine ⟨?_, ?_, ?_⟩
  · intro p extra res dur hp hsys hend
    rw [hstep]
    unfold straceBody
    dsimp only
    rw [htm]
    dsimp only
    rw [hrm]
    dsimp only
    rw [hp]
    dsimp only
    rw [if_pos hsys, hend]
    rcases hle : st.lastEnd pid with _ | v
    · exact ⟨by simp [updFn], by simp [updFn]⟩
    · exact ⟨by simp [updFn, hle], by simp [updFn]⟩
  · intro hp
    rw [hstep]
    unfold straceBody
    dsimp only
    rw [htm]
    dsimp only
    rw [hrm]
    dsimp only
    rw [hp]
  · intro p hp hsys
    rw [hstep]
    unfold straceBody
    dsimp only
    rw [htm]
    dsimp only
    rw [hrm]
    dsimp only
    rw [hp]
    dsimp only
    rw [if_neg hsys]

/-- C4 witness: the spec's own resumed-call example applied to a concrete
pending state (start time 10:00:00 = 36 000 000 ms since midnight). -/
theorem c4_resumed_call_reconstruction_witness :
    (straceStep c4St 1
      "10:00:00.050000 <... read resumed> \"data\", 4) = 4 <0.050000>").lines
      = c4St.lines ++ [⟨1, 0, c4Pending.timestampStr,
          c4Pending.startEpoch - (if c4St.hasStart then c4St.globalStart
            else parseTimestamp ⟨"10:00:00.050000".data⟩),
          ⟨"read".data⟩, jsTrim (c4Pending.startArgs ++ ⟨" \"data\", 4".data⟩),
          ⟨"4".data⟩, parseFloatQ ⟨"0.050000".data⟩,
          max 0 (c4Pending.startEpoch
            - jsOr (some ((c4St.lastEnd 0).getD (parseTimestamp ⟨"10:00:00.050000".data⟩)))
              c4Pending.startEpoch) / 1000,
          c4Pending.rawStart ++ " ... "
            ++ "10:00:00.050000 <... read resumed> \"data\", 4) = 4 <0.050000>"⟩]
    ∧ (straceStep c4St 1
        "10:00:00.050000 <... read resumed> \"data\", 4) = 4 <0.050000>").pending 0
        = none :=
  (c4_resumed_call_reconstruction c4St 1
      "10:00:00.050000 <... read resumed> \"data\", 4) = 4 <0.050000>" 0
      "10:00:00.050000 <... read resumed> \"data\", 4) = 4 <0.050000>".data
      "10:00:00.050000".data
      "<... read resumed> \"data\", 4) = 4 <0.050000>".data
      "read".data
      " \"data\", 4) = 4 <0.050000>".data
      (by decide) (by decide) (by decide) (by decide)).1
    c4Pending " \"data\", 4".data "4".data "0.050000".data rfl rfl (by decide)

/-! ## Nonnegativity and ordering facts for C8 -/

lemma parseFloatQ_nonneg (s : String) : 0 ≤ parseFloatQ s := by
  unfold parseFloatQ
  have h1 : (0 : ℚ) ≤ ((pfParts s).1 : ℚ) := Nat.cast_nonneg _
  have h2 : (0 : ℚ) ≤ ((pfParts s).2.1 : ℚ) / ((10 : ℚ) ^ (pfParts s).2.2) :=
    div_nonneg (Nat.cast_nonneg _) (by positivity)
  linarith

/-- On literals where JS `parseFloat` returns a number, the model's
`parseFloatQ` is that number, and it is non-negative. -/
lemma parseFloatJS_some (s : String) (v : ℚ) (h : parseFloatJS s = some v) :
    v = parseFloatQ s ∧ 0 ≤ v := by
  unfold parseFloatJS at h
  split at h
  · exact Option.noConfusion h
  · split at h
    · have hv : v = parseFloatQ s := (Option.some_inj.mp h).symm
      refine ⟨hv, ?_⟩
      rw [hv]
      exact parseFloatQ_nonneg s
    · split at h
      · split at h
        · exact Option.noConfusion h
        · split at h
          · have hv : v = parseFloatQ s := (Option.some_inj.mp h).symm
            refine ⟨hv, ?_⟩
            rw [hv]
            exact parseFloatQ_nonneg s
          · exact Option.noConfusion h
      · exact Option.noConfusion h

/-- Safety of the recorded traceback directions: a diagonal move is recorded
only with both indices positive, an up move only with a positive row, a left
move only with a positive column (and nothing but 1, 2, 3 is ever stored). -/
def dirSafe (dirs : ℕ × ℕ → Option ℕ) : Prop :=
  ∀ i j d, dirs (i, j) = some d →
    (d = 1 ∧ 0 < i ∧ 0 < j) ∨ (d = 2 ∧ 0 < i) ∨ (d = 3 ∧ 0 < j)

lemma fillCell_dirSafe (la lb : List TraceLine) (st : AlignSt) (i j : ℕ)
    (h : dirSafe st.dirs) : dirSafe (fillCell la lb st i j).dirs := by
  unfold fillCell
  split
  · exact h
  · dsimp only
    split
    · rename_i vd heq
      intro i' j' d hd
      dsimp only at hd
      unfold upd2 at hd
      split at hd
      · rename_i hkey
        simp only [Prod.mk.injEq] at hkey
        obtain ⟨hi, hj⟩ := hkey
        subst hi
        subst hj
        have hd2 : vd.2 = d := Option.some_inj.mp hd
        subst hd2
        rcases jsSelect_dir_cases _ _ _ vd.1 vd.2 (by rw [heq]) with
          ⟨hd1, hne⟩ | ⟨hd1, hne⟩ | ⟨hd1, hne⟩
        · refine Or.inl ⟨hd1, ?_⟩
          by_contra hguard
          exact hne (if_neg hguard)
        · refine Or.inr (Or.inl ⟨hd1, ?_⟩)
          by_contra hguard
          exact hne (if_neg hguard)
        · refine Or.inr (Or.inr ⟨hd1, ?_⟩)
          by_contra hguard
          exact hne (if_neg hguard)
      · exact h i' j' d hd
    · exact h

lemma fillRowFrom_dirSafe (la lb : List TraceLine) (i : ℕ) :
    ∀ (cnt j : ℕ) (st : AlignSt), dirSafe st.dirs →
      dirSafe (fillRowFrom la lb i j cnt st).dirs := by
  intro cnt
  induction cnt with
  | zero => intro j st h; exact h
  | succ c ih =>
    intro j st h
    exact ih (j + 1) (fillCell la lb st i j) (fillCell_dirSafe la lb st i j h)

lemma fillRowsFrom_dirSafe (la lb : List TraceLine) (n m K : ℕ) :
    ∀ (cnt i : ℕ) (st : AlignSt), dirSafe st.dirs →
      dirSafe (fillRowsFrom la lb n m K i cnt st).dirs := by
  intro cnt
  induction cnt with
  | zero => intro i st h; exact h
  | succ c ih =>
    intro i st h
    apply ih
    dsimp only
    split
    · exact h
    · exact fillRowFrom_dirSafe la lb i _ _ st h

lemma alignFill_dirSafe (la lb : List TraceLine) : dirSafe (alignFill la lb).dirs := by
  apply fillRowsFrom_dirSafe
  intro i j d hd
  exact Option.noConfusion hd

/-- Events contributed to the A side (match, mismatch and delete rows). -/
def aSide (rows : List DiffRow) : List TraceLine :=
  rows.filterMap (fun r =>
    match r.rtype with
    | RowType.matched => r.a
    | RowType.mismatch => r.a
    | RowType.delete => r.a
    | _ => none)

/-- Events contributed to the B side (match, mismatch and insert rows). -/
def bSide (rows : List DiffRow) : List TraceLine :=
  rows.filterMap (fun r =>
    match r.rtype with
    | RowType.matched => r.b
    | RowType.mismatch => r.b
    | RowType.insert => r.b
    | _ => none)

lemma take_step {α : Type} (l : List α) (d : α) (k : ℕ) (h : k < l.length) :
    l.take k ++ [l.getD k d] = l.take (k + 1) := by
  rw [List.take_succ]
  congr 1
  rw [List.getD_eq_getElem?_getD, List.getElem?_eq_getElem h]
  rfl

lemma traceback_spec (la lb : List TraceLine) (dirs : ℕ × ℕ → Option ℕ)
    (hsafe : dirSafe dirs) :
    ∀ (fuel i j : ℕ), i + j ≤ fuel → i ≤ la.length → j ≤ lb.length →
    aSide (traceback la lb dirs fuel i j) = la.take i
    ∧ bSide (traceback la lb dirs fuel i j) = lb.take j
    ∧ ∀ r ∈ traceback la lb dirs fuel i j,
        r.rtype = RowType.matched ∨ r.rtype = RowType.mismatch
        ∨ r.rtype = RowType.insert ∨ r.rtype = RowType.delete := by
  intro fuel
  induction fuel with
  | zero =>
    intro i j hf hi hj
    have hi0 : i = 0 := by omega
    have hj0 : j = 0 := by omega
    subst hi0
    subst hj0
    exact ⟨rfl, rfl, fun r hr => absurd hr (List.not_mem_nil r)⟩
  | succ f ih =>
    intro i j hf hi hj
    show aSide (traceback la lb dirs (f + 1) i j) = _ ∧ _
    unfold traceback
    by_cases hz : i = 0 ∧ j = 0
    · rw [if_pos hz]
      obtain ⟨hi0, hj0⟩ := hz
      subst hi0
      subst hj0
      exact ⟨rfl, rfl, fun r hr => absurd hr (List.not_mem_nil r)⟩
    · rw [if_neg hz]
      rcases hd : dirs (i, j) with _ | d
      · dsimp only
        by_cases hij : 0 < i ∧ 0 < j
        · rw [if_pos hij]
          obtain ⟨hi1, hj1⟩ := hij
          obtain ⟨ha, hb, ht⟩ := ih (i - 1) (j - 1) (by omega) (by omega) (by omega)
          refine ⟨?_, ?_, ?_⟩
          · unfold aSide at ha ⊢
            rw [List.filterMap_append, ha]
            show la.take (i - 1) ++ [la.getD (i - 1) dummyLine] = _
            rw [take_step la dummyLine (i - 1) (by omega)]
            congr 1
            omega
          · unfold bSide at hb ⊢
            rw [List.filterMap_append, hb]
            show lb.take (j - 1) ++ [lb.getD (j - 1) dummyLine] = _
            rw [take_step lb dummyLine (j - 1) (by omega)]
            congr 1
            omega
          · intro r hr
            rcases List.mem_append.mp hr with h | h
            · exact ht r h
            · simp only [List.mem_singleton] at h
              subst h
              right; left; rfl
        · rw [if_neg hij]
          by_cases hi1 : 0 < i
          · rw [if_pos hi1]
            have hj0 : j = 0 := by omega
            obtain ⟨ha, hb, ht⟩ := ih (i - 1) j (by omega) (by omega) (by omega)
            refine ⟨?_, ?_, ?_⟩
            · unfold aSide at ha ⊢
              rw [List.filterMap_append, ha]
              show la.take (i - 1) ++ [la.getD (i - 1) dummyLine] = _
              rw [take_step la dummyLine (i - 1) (by omega)]
              congr 1
              omega
            · unfold bSide at hb ⊢
              rw [List.filterMap_append, hb]
              simp [deleteRow]
            · intro r hr
              rcases List.mem_append.mp hr with h | h
              · exact ht r h
              · simp only [List.mem_singleton] at h
                subst h
                right; right; right; rfl
          · rw [if_neg hi1]
            have hj1 : 0 < j := by omega
            obtain ⟨ha, hb, ht⟩ := ih i (j - 1) (by omega) (by omega) (by omega)
            refine ⟨?_, ?_, ?_⟩
            · unfold aSide at ha ⊢
              rw [List.filterMap_append, ha]
              simp [insertRow]
            · unfold bSide at hb ⊢
              rw [List.filterMap_append, hb]
              show lb.take (j - 1) ++ [lb.getD (j - 1) dummyLine] = _
              rw [take_step lb dummyLine (j - 1) (by omega)]
              congr 1
              omega
            · intro r hr
              rcases List.mem_append.mp hr with h | h
              · exact ht r h
              · simp only [List.mem_singleton] at h
                subst h
                right; right; left; rfl
      · dsimp only
        rcases hsafe i j d hd with ⟨hd1, hi1, hj1⟩ | ⟨hd2, hi1⟩ | ⟨hd3, hj1⟩
        · subst hd1
          rw [if_pos rfl]
          obtain ⟨ha, hb, ht⟩ := ih (i - 1) (j - 1) (by omega) (by omega) (by omega)
          refine ⟨?_, ?_, ?_⟩
          · unfold aSide at ha ⊢
            rw [List.filterMap_append, ha]
            have hrow : ∀ r : DiffRow,
                (r = matchedRow (la.getD (i - 1) dummyLine) (lb.getD (j - 1) dummyLine)
                  ∨ r = mismatchRow (la.getD (i - 1) dummyLine) (lb.getD (j - 1) dummyLine)) →
                (List.filterMap (fun r =>
                  match r.rtype with
                  | RowType.matched => r.a
                  | RowType.mismatch => r.a
                  | RowType.delete => r.a
                  | _ => none) [r]) = [la.getD (i - 1) dummyLine] := by
              intro r hr
              rcases hr with h | h <;> subst h <;> rfl
            rw [hrow _ (by split <;> [exact Or.inl rfl; exact Or.inr rfl])]
            rw [take_step la dummyLine (i - 1) (by omega)]
            congr 1
            omega
          · unfold bSide at hb ⊢
            rw [List.filterMap_append, hb]
            have hrow : ∀ r : DiffRow,
                (r = matchedRow (la.getD (i - 1) dummyLine) (lb.getD (j - 1) dummyLine)
                  ∨ r = mismatchRow (la.getD (i - 1) dummyLine) (lb.getD (j - 1) dummyLine)) →
                (List.filterMap (fun r =>
                  match r.rtype with
                  | RowType.matched => r.b
                  | RowType.mismatch => r.b
                  | RowType.insert => r.b
                  | _ => none) [r]) = [lb.getD (j - 1) dummyLine] := by
              intro r hr
              rcases hr with h | h <;> subst h <;> rfl
            rw [hrow _ (by split <;> [exact Or.inl rfl; exact Or.inr rfl])]
            rw [take_step lb dummyLine (j - 1) (by omega)]
            congr 1
            omega
          · intro r hr
            rcases List.mem_append.mp hr with h | h
            · exact ht r h
            · simp only [List.mem_singleton] at h
              subst h
              split
              · left; rfl
              · right; left; rfl
        · subst hd2
          rw [if_neg (by omega), if_pos rfl]
          obtain ⟨ha, hb, ht⟩ := ih (i - 1) j (by omega) (by omega) (by omega)
          refine ⟨?_, ?_, ?_⟩
          · unfold aSide at ha ⊢
            rw [List.filterMap_append, ha]
            show la.take (i - 1) ++ [la.getD (i - 1) dummyLine] = _
            rw [take_step la dummyLine (i - 1) (by omega)]
            congr 1
            omega
          · unfold bSide at hb ⊢
            rw [List.filterMap_append, hb]
            simp [deleteRow]
          · intro r hr
            rcases List.mem_append.mp hr with h | h
            · exact ht r h
            · simp only [List.mem_singleton] at h
              subst h
              right; right; right; rfl
        · subst hd3
          rw [if_neg (by omega), if_neg (by omega)]
          obtain ⟨ha, hb, ht⟩ := ih i (j - 1) (by omega) (by omega) (by omega)
          refine ⟨?_, ?_, ?_⟩
          · unfold aSide at ha ⊢
            rw [List.filterMap_append, ha]
            simp [insertRow]
          · unfold bSide at hb ⊢
            rw [List.filterMap_append, hb]
            show lb.take (j - 1) ++ [lb.getD (j - 1) dummyLine] = _
            rw [take_step lb dummyLine (j - 1) (by omega)]
            congr 1
            omega
          · intro r hr
            rcases List.mem_append.mp hr with h | h
            · exact ht r h
            · simp only [List.mem_singleton] at h
              subst h
              right; right; left; rfl

/-- C3.  For every pair of ParsedTrace inputs, every row of the aligner's
diff sequence has exactly one of the four types match, mismatch, insert,
delete (never `gap`); concatenating the a-side events of the match, mismatch
and delete rows in order reconstructs exactly sequence A, and concatenating
the b-side events of the match, mismatch and insert rows in order
reconstructs exactly sequence B. -/
theorem c3_alignment_reconstruction (tA tB : ParsedTrace) :
    aSide (alignTraces tA tB) = tA.lines
    ∧ bSide (alignTraces tA tB) = tB.lines
    ∧ ∀ r ∈ alignTraces tA tB,
        r.rtype = RowType.matched ∨ r.rtype = RowType.mismatch
        ∨ r.rtype = RowType.insert ∨ r.rtype = RowType.delete := by
  have hsafe := alignFill_dirSafe tA.lines tB.lines
  have h := traceback_spec tA.lines tB.lines (alignFill tA.lines tB.lines).dirs hsafe
    (tA.lines.length + tB.lines.length) tA.lines.length tB.lines.length
    (le_refl _) (le_refl _) (le_refl _)
  obtain ⟨ha, hb, ht⟩ := h
  refine ⟨?_, ?_, ?_⟩
  · show aSide (traceback tA.lines tB.lines (alignFill tA.lines tB.lines).dirs
      (tA.lines.length + tB.lines.length) tA.lines.length tB.lines.length) = _
    rw [ha, List.take_length]
  · show bSide (traceback tA.lines tB.lines (alignFill tA.lines tB.lines).dirs
      (tA.lines.length + tB.lines.length) tA.lines.length tB.lines.length) = _
    rw [hb, List.take_length]
  · exact ht

/-! ## Score bounds (for the self-alignment claim C2) -/

lemma commonPfxLen_le : ∀ (as bs : List Char) (k : ℕ), commonPfxLen as bs k ≤ k := by
  intro as
  induction as with
  | nil => intro bs k; cases bs <;> cases k <;> simp [commonPfxLen]
  | cons a as ih =>
    intro bs k
    cases bs with
    | nil => cases k <;> simp [commonPfxLen]
    | cons b bs =>
      cases k with
      | zero => simp [commonPfxLen]
      | succ k =>
        unfold commonPfxLen
        split
        · have := ih bs k
          omega
        · omega

lemma blend_le_one (common checkLen minLen maxLen : ℕ) (hc : common ≤ max checkLen 1)
    (hml : minLen ≤ maxLen) (hm : maxLen ≠ 0) :
    (common : ℚ) / ((max checkLen 1 : ℕ) : ℚ) * (7 / 10)
      + (minLen : ℚ) / ((maxLen : ℕ) : ℚ) * (3 / 10) ≤ 1 := by
  have hden1 : (0 : ℚ) < ((max checkLen 1 : ℕ) : ℚ) := by
    have : 0 < max checkLen 1 := lt_of_lt_of_le Nat.one_pos (le_max_right _ _)
    exact_mod_cast this
  have hmaxpos : (0 : ℚ) < ((maxLen : ℕ) : ℚ) := by
    have : 0 < maxLen := Nat.pos_of_ne_zero hm
    exact_mod_cast this
  have hp1 : (common : ℚ) / ((max checkLen 1 : ℕ) : ℚ) ≤ 1 := by
    rw [div_le_one hden1]
    exact_mod_cast hc
  have hl1 : (minLen : ℚ) / ((maxLen : ℕ) : ℚ) ≤ 1 := by
    rw [div_le_one hmaxpos]
    exact_mod_cast hml
  have h1 := mul_le_mul_of_nonneg_right hp1 (by norm_num : (0:ℚ) ≤ 7/10)
  have h2 := mul_le_mul_of_nonneg_right hl1 (by norm_num : (0:ℚ) ≤ 3/10)
  linarith

lemma getArgSimilarity_nonneg (a b : String) : 0 ≤ getArgSimilarity a b := by
  unfold getArgSimilarity
  repeat' (first | split | dsimp only)
  all_goals first
    | positivity
    | norm_num

lemma getArgSimilarity_le_one (a b : String) : getArgSimilarity a b ≤ 1 := by
  unfold getArgSimilarity
  repeat' (first | split | dsimp only)
  all_goals try (norm_num; done)
  all_goals rename_i hm
  all_goals exact blend_le_one _ _ _ _ (le_trans (commonPfxLen_le _ _ _) (le_max_left _ _)) min_le_max hm

lemma calculateScore_le (a b : TraceLine) : calculateScore a b ≤ 15 := by
  unfold calculateScore
  have hb1 := getArgSimilarity_nonneg a.args b.args
  have hb2 := getArgSimilarity_le_one a.args b.args
  split
  · unfold SCORE_MATCH MAX_ARG_BONUS
    nlinarith
  · dsimp only
    split
    · unfold SCORE_APPROX MAX_ARG_BONUS
      nlinarith
    · unfold SCORE_MISMATCH
      norm_num

lemma calculateScore_self (e : TraceLine) : calculateScore e e = 15 := by
  unfold calculateScore
  rw [if_pos rfl]
  unfold getArgSimilarity
  rw [if_pos rfl]
  unfold SCORE_MATCH MAX_ARG_BONUS
  norm_num

/-- The score envelope of the self-alignment dynamic program:
`bound i j = 15·min(i,j) − 4·|i−j|`. -/
def bound (i j : ℕ) : ℚ := 15 * min (i : ℚ) (j : ℚ) - 4 * |(i : ℚ) - (j : ℚ)|

lemma boundQ_left (a b : ℚ) :
    15 * min a (b - 1) - 4 * |a - (b - 1)| - 4 ≤ 15 * min a b - 4 * |a - b| := by
  rcases min_cases a (b - 1) with ⟨h1, h2⟩ | ⟨h1, h2⟩ <;>
    rcases min_cases a b with ⟨h3, h4⟩ | ⟨h3, h4⟩ <;>
      rcases abs_cases (a - (b - 1)) with ⟨h5, h6⟩ | ⟨h5, h6⟩ <;>
        rcases abs_cases (a - b) with ⟨h7, h8⟩ | ⟨h7, h8⟩ <;>
          rw [h1, h3, h5, h7] <;> linarith

lemma boundQ_diag (a b s : ℚ) (hs : s ≤ 15) :
    15 * min (a - 1) (b - 1) - 4 * |(a - 1) - (b - 1)| + s
      ≤ 15 * min a b - 4 * |a - b| := by
  have hmin : min (a - 1) (b - 1) = min a b - 1 := by
    rcases min_cases a b with ⟨h1, h2⟩ | ⟨h1, h2⟩ <;>
      rcases min_cases (a - 1) (b - 1) with ⟨h3, h4⟩ | ⟨h3, h4⟩ <;> linarith
  have habs : |(a - 1) - (b - 1)| = |a - b| := by
    congr 1
    ring
  rw [hmin, habs]
  linarith

lemma bound_left_step (i j : ℕ) (hj : 1 ≤ j) : bound i (j - 1) - 4 ≤ bound i j := by
  unfold bound
  have hc : ((j - 1 : ℕ) : ℚ) = (j : ℚ) - 1 := by
    have : ((j - 1 : ℕ) : ℚ) = (j : ℚ) - ((1 : ℕ) : ℚ) := Nat.cast_sub hj
    simpa using this
  rw [hc]
  exact boundQ_left _ _

lemma bound_up_step (i j : ℕ) (hi : 1 ≤ i) : bound (i - 1) j - 4 ≤ bound i j := by
  unfold bound
  have hc : ((i - 1 : ℕ) : ℚ) = (i : ℚ) - 1 := by
    have : ((i - 1 : ℕ) : ℚ) = (i : ℚ) - ((1 : ℕ) : ℚ) := Nat.cast_sub hi
    simpa using this
  rw [hc]
  have h := boundQ_left (j : ℚ) (i : ℚ)
  have hcomm1 : min ((j : ℚ)) ((i : ℚ) - 1) = min ((i : ℚ) - 1) (j : ℚ) := min_comm _ _
  have hcomm2 : min ((j : ℚ)) ((i : ℚ)) = min ((i : ℚ)) (j : ℚ) := min_comm _ _
  have habs1 : |(j : ℚ) - ((i : ℚ) - 1)| = |((i : ℚ) - 1) - (j : ℚ)| := abs_sub_comm _ _
  have habs2 : |(j : ℚ) - (i : ℚ)| = |(i : ℚ) - (j : ℚ)| := abs_sub_comm _ _
  rw [hcomm1, hcomm2, habs1, habs2] at h
  exact h

lemma bound_diag_step (i j : ℕ) (hi : 1 ≤ i) (hj : 1 ≤ j) (s : ℚ) (hs : s ≤ 15) :
    bound (i - 1) (j - 1) + s ≤ bound i j := by
  unfold bound
  have hci : ((i - 1 : ℕ) : ℚ) = (i : ℚ) - ((1 : ℕ) : ℚ) := Nat.cast_sub hi
  have hcj : ((j - 1 : ℕ) : ℚ) = (j : ℚ) - ((1 : ℕ) : ℚ) := Nat.cast_sub hj
  rw [hci, hcj]
  push_cast
  exact boundQ_diag _ _ s hs

lemma bound_diag_eq (k : ℕ) : bound k k = 15 * k := by
  unfold bound
  simp

/-! ## C2 — self-alignment fills the diagonal with matches -/

/-- Every interior score the fill loop has stored obeys the envelope. -/
def sb (st : AlignSt) : Prop :=
  ∀ i j v, 1 ≤ i → 1 ≤ j → st.scores (i, j) = some v → v ≤ bound i j

lemma sb_init : sb initAlignSt := by
  intro i j v _ _ h
  exact Option.noConfusion h

lemma bound00 : bound 0 0 = 0 := by
  unfold bound
  norm_num

lemma bound_row0 (j : ℕ) : bound 0 j = (j : ℚ) * SCORE_GAP := by
  unfold bound SCORE_GAP
  have hj : (0 : ℚ) ≤ (j : ℚ) := Nat.cast_nonneg j
  rw [Nat.cast_zero, min_eq_left hj, abs_of_nonpos (by linarith)]
  ring

lemma bound_col0 (i : ℕ) : bound i 0 = (i : ℚ) * SCORE_GAP := by
  unfold bound SCORE_GAP
  have hi : (0 : ℚ) ≤ (i : ℚ) := Nat.cast_nonneg i
  rw [Nat.cast_zero, min_eq_right hi, abs_of_nonneg (by linarith)]
  ring

lemma getScoreFn_le_bound {st : AlignSt} (hsb : sb st) (i j : ℕ) (g : ℚ)
    (h : getScoreFn st.scores i j = some g) : g ≤ bound i j := by
  unfold getScoreFn at h
  split at h
  · rename_i h0
    obtain ⟨hi, hj⟩ := h0
    subst hi
    subst hj
    have hg : g = 0 := (Option.some_inj.mp h).symm
    subst hg
    exact le_of_eq bound00.symm
  · split at h
    · rename_i h0 hi
      subst hi
      have hg : g = (j : ℚ) * SCORE_GAP := (Option.some_inj.mp h).symm
      subst hg
      exact le_of_eq (bound_row0 j).symm
    · split at h
      · rename_i h0 h1 hj
        subst hj
        have hg : g = (i : ℚ) * SCORE_GAP := (Option.some_inj.mp h).symm
        subst hg
        exact le_of_eq (bound_col0 i).symm
      · rename_i h0 h1 h2
        exact hsb i j g (by omega) (by omega) h

/-- The value stored by the JS best-move selection is one of the three
candidates. -/
lemma jsSelect_val_mem (left up diag : Option ℚ) (v : ℚ) (d : ℕ)
    (h : jsSelect left up diag = some (v, d)) :
    left = some v ∨ up = some v ∨ diag = some v := by
  unfold jsSelect at h
  dsimp only at h
  by_cases hge : optGe diag (if optGt up left = true then up else left) = true
  · rw [if_pos hge, if_pos hge] at h
    rcases diag with _ | dv
    · exact Option.noConfusion h
    · injection h with h1
      injection h1 with hv hd
      subst hv
      exact Or.inr (Or.inr rfl)
  · rw [if_neg hge, if_neg hge] at h
    by_cases hgt : optGt up left = true
    · rw [if_pos hgt, if_pos hgt] at h
      rcases up with _ | uv
      · exact Option.noConfusion h
      · injection h with h1
        injection h1 with hv hd
        subst hv
        exact Or.inr (Or.inl rfl)
    · rw [if_neg hgt, if_neg hgt] at h
      rcases left with _ | lv
      · exact Option.noConfusion h
      · injection h with h1
        injection h1 with hv hd
        subst hv
        exact Or.inl rfl

/-- When the diagonal candidate is at least every other candidate, the JS
selection records it with direction 1. -/
lemma jsSelect_diag_wins (left up : Option ℚ) (dv : ℚ)
    (hl : ∀ w, left = some w → w ≤ dv) (hu : ∀ w, up = some w → w ≤ dv) :
    jsSelect left up (some dv) = some (dv, 1) := by
  unfold jsSelect
  dsimp only
  have hge : optGe (some dv) (if optGt up left = true then up else left) = true := by
    split
    · rcases up with _ | uv
      · rfl
      · simpa [optGe] using hu uv rfl
    · rcases left with _ | lv
      · rfl
      · simpa [optGe] using hl lv rfl
  rw [if_pos hge, if_pos hge]

lemma fillCell_scores_other (la lb : List TraceLine) (st : AlignSt) (i j : ℕ)
    (p : ℕ × ℕ) (hne : p ≠ (i, j)) (hne0 : p ≠ (0, 0)) :
    (fillCell la lb st i j).scores p = st.scores p := by
  unfold fillCell upd2
  repeat' (first | split | dsimp only)
  all_goals first
    | rfl
    | (rename_i hp; exact absurd hp hne0)
    | (rename_i hp; exact absurd hp hne)

lemma fillCell_dirs_other (la lb : List TraceLine) (st : AlignSt) (i j : ℕ)
    (p : ℕ × ℕ) (hne : p ≠ (i, j)) :
    (fillCell la lb st i j).dirs p = st.dirs p := by
  unfold fillCell upd2
  repeat' (first | split | dsimp only)
  all_goals first
    | rfl
    | (rename_i hp; exact absurd hp hne)

lemma getScoreFn_fillCell_other (la lb : List TraceLine) (st : AlignSt) (i j a b : ℕ)
    (hne : ((a, b) : ℕ × ℕ) ≠ (i, j)) :
    getScoreFn (fillCell la lb st i j).scores a b = getScoreFn st.scores a b := by
  unfold getScoreFn
  split
  · rfl
  · split
    · rfl
    · split
      · rfl
      · rename_i h0 h1 h2
        exact fillCell_scores_other la lb st i j (a, b) hne (by
          intro hc
          exact h1 (congrArg Prod.fst hc))

/-- The value a fill step stores at an interior cell obeys the envelope. -/
lemma fillCell_scores_self_le (la lb : List TraceLine) (st : AlignSt) (i j : ℕ)
    (hi : 1 ≤ i) (hj : 1 ≤ j) (hsb : sb st) (v : ℚ)
    (hv : (fillCell la lb st i j).scores (i, j) = some v) : v ≤ bound i j := by
  unfold fillCell at hv
  rw [if_neg (by omega : ¬(i = 0 ∧ j = 0))] at hv
  dsimp only at hv
  split at hv
  · rename_i vd heq
    dsimp only at hv
    unfold upd2 at hv
    split at hv
    · have hvv : vd.1 = v := Option.some_inj.mp hv
      rcases jsSelect_val_mem _ _ _ vd.1 vd.2 (by rw [heq]) with hcand | hcand | hcand
      · rw [if_pos (by omega : 0 < j), Option.map_eq_some'] at hcand
        obtain ⟨g, hg, hgv⟩ := hcand
        have hgb := getScoreFn_le_bound hsb i (j - 1) g hg
        have hstep := bound_left_step i j hj
        rw [← hvv, ← hgv]
        unfold SCORE_GAP
        linarith
      · rw [if_pos (by omega : 0 < i), Option.map_eq_some'] at hcand
        obtain ⟨g, hg, hgv⟩ := hcand
        have hgb := getScoreFn_le_bound hsb (i - 1) j g hg
        have hstep := bound_up_step i j hi
        rw [← hvv, ← hgv]
        unfold SCORE_GAP
        linarith
      · rw [if_pos (show 0 < i ∧ 0 < j by omega), Option.map_eq_some'] at hcand
        obtain ⟨g, hg, hgv⟩ := hcand
        have hgb := getScoreFn_le_bound hsb (i - 1) (j - 1) g hg
        have hscore := calculateScore_le (la.getD (i - 1) dummyLine) (lb.getD (j - 1) dummyLine)
        have hstep := bound_diag_step i j hi hj
          (calculateScore (la.getD (i - 1) dummyLine) (lb.getD (j - 1) dummyLine)) hscore
        rw [← hvv, ← hgv]
        linarith
    · rename_i hkey
      exact absurd rfl hkey
  · exact hsb i j v hi hj hv

lemma fillCell_sb (la lb : List TraceLine) (st : AlignSt) (i j : ℕ) (hsb : sb st) :
    sb (fillCell la lb st i j) := by
  intro a b v ha hb hv
  by_cases hp : ((a, b) : ℕ × ℕ) = (i, j)
  · have hai : a = i := congrArg Prod.fst hp
    have hbj : b = j := congrArg Prod.snd hp
    rw [hp] at hv
    rw [hai, hbj]
    exact fillCell_scores_self_le la lb st i j (hai ▸ ha) (hbj ▸ hb) hsb v hv
  · by_cases hp0 : ((a, b) : ℕ × ℕ) = (0, 0)
    · have : a = 0 := congrArg Prod.fst hp0
      omega
    · rw [fillCell_scores_other la lb st i j (a, b) hp hp0] at hv
      exact hsb a b v ha hb hv

/-- Filling the diagonal cell of row `k` against an identical list stores the
running self-alignment score `15·k` with direction 1. -/
lemma fillCell_diag_hit (la : List TraceLine) (st : AlignSt) (k : ℕ) (hk : 1 ≤ k)
    (hsb : sb st)
    (hprev : getScoreFn st.scores (k - 1) (k - 1) = some (15 * ((k - 1 : ℕ) : ℚ))) :
    (fillCell la la st k k).scores (k, k) = some (15 * (k : ℚ)) ∧
      (fillCell la la st k k).dirs (k, k) = some 1 := by
  have hk0 : 0 < k := hk
  have hcast : ((k - 1 : ℕ) : ℚ) = (k : ℚ) - 1 := by
    have h2 : ((k - 1 : ℕ) : ℚ) = (k : ℚ) - ((1 : ℕ) : ℚ) := Nat.cast_sub hk
    simpa using h2
  have hD : (if 0 < k ∧ 0 < k then
        (getScoreFn st.scores (k - 1) (k - 1)).map
          (fun v => v + calculateScore (la.getD (k - 1) dummyLine) (la.getD (k - 1) dummyLine))
      else none) = some (15 * (k : ℚ)) := by
    rw [if_pos ⟨hk0, hk0⟩, hprev, Option.map_some', calculateScore_self, hcast]
    congr 1
    ring
  have hL : ∀ w : ℚ,
      (if 0 < k then (getScoreFn st.scores k (k - 1)).map (fun v => v + SCORE_GAP) else none)
        = some w → w ≤ 15 * (k : ℚ) := by
    intro w hw
    rw [if_pos hk0, Option.map_eq_some'] at hw
    obtain ⟨g, hg, hgw⟩ := hw
    have hgb := getScoreFn_le_bound hsb k (k - 1) g hg
    have hstep := bound_left_step k k hk
    have hbb := bound_diag_eq k
    rw [← hgw]
    unfold SCORE_GAP
    linarith
  have hU : ∀ w : ℚ,
      (if 0 < k then (getScoreFn st.scores (k - 1) k).map (fun v => v + SCORE_GAP) else none)
        = some w → w ≤ 15 * (k : ℚ) := by
    intro w hw
    rw [if_pos hk0, Option.map_eq_some'] at hw
    obtain ⟨g, hg, hgw⟩ := hw
    have hgb := getScoreFn_le_bound hsb (k - 1) k g hg
    have hstep := bound_up_step k k hk
    have hbb := bound_diag_eq k
    rw [← hgw]
    unfold SCORE_GAP
    linarith
  unfold fillCell
  rw [if_neg (by omega : ¬(k = 0 ∧ k = 0))]
  dsimp only
  rw [hD, jsSelect_diag_wins _ _ _ hL hU]
  dsimp only
  constructor
  · unfold upd2
    rw [if_pos rfl]
  · unfold upd2
    rw [if_pos rfl]

lemma fillRowFrom_sb (la lb : List TraceLine) (i : ℕ) :
    ∀ (cnt j : ℕ) (st : AlignSt), sb st → sb (fillRowFrom la lb i j cnt st) := by
  intro cnt
  induction cnt with
  | zero => intro j st h; exact h
  | succ c ih =>
    intro j st h
    exact ih (j + 1) (fillCell la lb st i j) (fillCell_sb la lb st i j h)

lemma fillRowFrom_other (la lb : List TraceLine) (i : ℕ) :
    ∀ (cnt j : ℕ) (st : AlignSt) (p : ℕ × ℕ), p.1 ≠ i → p ≠ (0, 0) →
      (fillRowFrom la lb i j cnt st).scores p = st.scores p ∧
      (fillRowFrom la lb i j cnt st).dirs p = st.dirs p := by
  intro cnt
  induction cnt with
  | zero => intro j st p h1 h2; exact ⟨rfl, rfl⟩
  | succ c ih =>
    intro j st p h1 h2
    have hne : p ≠ (i, j) := by
      intro hc
      exact h1 (congrArg Prod.fst hc)
    obtain ⟨hs, hd⟩ := ih (j + 1) (fillCell la lb st i j) p h1 h2
    simp only [fillRowFrom]
    constructor
    · rw [hs]
      exact fillCell_scores_other la lb st i j p hne h2
    · rw [hd]
      exact fillCell_dirs_other la lb st i j p hne

lemma fillRowFrom_lowcol (la lb : List TraceLine) (i : ℕ) :
    ∀ (cnt j : ℕ) (st : AlignSt) (p : ℕ × ℕ), p.2 < j → p ≠ (0, 0) →
      (fillRowFrom la lb i j cnt st).scores p = st.scores p ∧
      (fillRowFrom la lb i j cnt st).dirs p = st.dirs p := by
  intro cnt
  induction cnt with
  | zero => intro j st p h1 h2; exact ⟨rfl, rfl⟩
  | succ c ih =>
    intro j st p h1 h2
    have hne : p ≠ (i, j) := by
      intro hc
      rw [hc] at h1
      exact absurd h1 (lt_irrefl j)
    obtain ⟨hs, hd⟩ := ih (j + 1) (fillCell la lb st i j) p (by omega) h2
    simp only [fillRowFrom]
    constructor
    · rw [hs]
      exact fillCell_scores_other la lb st i j p hne h2
    · rw [hd]
      exact fillCell_dirs_other la lb st i j p hne

lemma fillRowFrom_diag (la : List TraceLine) (i : ℕ) (hi : 1 ≤ i) :
    ∀ (cnt j : ℕ) (st : AlignSt), sb st →
      getScoreFn st.scores (i - 1) (i - 1) = some (15 * ((i - 1 : ℕ) : ℚ)) →
      j ≤ i → i < j + cnt →
      (fillRowFrom la la i j cnt st).scores (i, i) = some (15 * (i : ℚ)) ∧
      (fillRowFrom la la i j cnt st).dirs (i, i) = some 1 := by
  intro cnt
  induction cnt with
  | zero =>
    intro j st _ _ hji hlt
    exact absurd hlt (by omega)
  | succ c ih =>
    intro j st hsb hprev hji hlt
    simp only [fillRowFrom]
    by_cases hj : j = i
    · rw [hj]
      have hhit := fillCell_diag_hit la st i hi hsb hprev
      have hpres := fillRowFrom_lowcol la la i c (i + 1) (fillCell la la st i i) (i, i)
        (Nat.lt_succ_self i) (by
          intro hc
          exact absurd (congrArg Prod.fst hc) (by omega))
      constructor
      · rw [hpres.1]
        exact hhit.1
      · rw [hpres.2]
        exact hhit.2
    · have hprev2 : getScoreFn (fillCell la la st i j).scores (i - 1) (i - 1)
          = some (15 * ((i - 1 : ℕ) : ℚ)) := by
        rw [getScoreFn_fillCell_other la la st i j (i - 1) (i - 1) (by
          intro hc
          exact absurd (congrArg Prod.fst hc) (by omega))]
        exact hprev
      exact ih (j + 1) (fillCell la la st i j) (fillCell_sb la la st i j hsb) hprev2
        (by omega) (by omega)

/-- The diagonal prefix of the score and direction maps is fully determined. -/
def diagDone (st : AlignSt) (d : ℕ) : Prop :=
  ∀ k, 1 ≤ k → k ≤ d → st.scores (k, k) = some (15 * (k : ℚ)) ∧ st.dirs (k, k) = some 1

lemma fillRowsFrom_diag (la : List TraceLine) (n K : ℕ) (hn : 1 ≤ n) :
    ∀ (cnt i : ℕ) (st : AlignSt), i + cnt = n + 1 → sb st → diagDone st (i - 1) →
      diagDone (fillRowsFrom la la n n K i cnt st) n := by
  intro cnt
  induction cnt with
  | zero =>
    intro i st heq hsb hdd
    have hieq : i - 1 = n := by omega
    rw [hieq] at hdd
    exact hdd
  | succ c ih =>
    intro i st heq hsb hdd
    simp only [fillRowsFrom]
    rw [if_neg (by omega : ¬ n = 0)]
    have hcenter : rowCenter n n i = i := by
      unfold rowCenter
      rw [Nat.mul_div_assoc i (dvd_refl n), Nat.div_self (by omega : 0 < n), Nat.mul_one]
    rw [hcenter]
    by_cases hi0 : i = 0
    · subst hi0
      refine ih 1 _ (by omega) (fillRowFrom_sb la la 0 _ _ _ hsb) ?_
      intro k hk1 hk0
      exact absurd hk0 (by omega)
    · have hi1 : 1 ≤ i := by omega
      have hiln : i ≤ n := by omega
      have hprev : getScoreFn st.scores (i - 1) (i - 1) = some (15 * ((i - 1 : ℕ) : ℚ)) := by
        by_cases hi2 : i = 1
        · subst hi2
          simp [getScoreFn]
        · unfold getScoreFn
          rw [if_neg (by omega : ¬(i - 1 = 0 ∧ i - 1 = 0))]
          rw [if_neg (by omega : ¬ i - 1 = 0)]
          rw [if_neg (by omega : ¬ i - 1 = 0)]
          exact (hdd (i - 1) (by omega) (le_refl _)).1
      have harange1 : i - K ≤ i := Nat.sub_le _ _
      have hiej : i ≤ min n (i + K) := le_min hiln (Nat.le_add_right _ _)
      have h3 : i - K ≤ min n (i + K) := le_trans harange1 hiej
      have harange2 : i < (i - K) + (min n (i + K) + 1 - (i - K)) := by omega
      have hdiag := fillRowFrom_diag la i hi1 (min n (i + K) + 1 - (i - K)) (i - K) st
        hsb hprev harange1 harange2
      have hsb2 := fillRowFrom_sb la la i (min n (i + K) + 1 - (i - K)) (i - K) st hsb
      have hdd2 : diagDone (fillRowFrom la la i (i - K) (min n (i + K) + 1 - (i - K)) st) i := by
        intro k hk1 hki
        by_cases hk : k = i
        · subst hk
          exact hdiag
        · have hpres := fillRowFrom_other la la i (min n (i + K) + 1 - (i - K)) (i - K) st
            (k, k) hk (by
              intro hc
              exact absurd (congrArg Prod.fst hc) (by omega))
          rw [hpres.1, hpres.2]
          exact hdd k hk1 (by omega)
      exact ih (i + 1) _ (by omega) hsb2 hdd2

lemma alignFill_diag (la : List TraceLine) (hn : 1 ≤ la.length) :
    diagDone (alignFill la la) la.length := by
  unfold alignFill
  refine fillRowsFrom_diag la la.length (bandK la.length la.length) hn
    (la.length + 1) 0 initAlignSt (by omega) sb_init ?_
  intro k hk1 hk0
  exact absurd hk0 (by omega)

/-- With direction 1 everywhere on the diagonal, the traceback from `(k, k)`
reproduces the first `k` events as self-matched rows. -/
lemma traceback_diag (la : List TraceLine) (dirs : ℕ × ℕ → Option ℕ)
    (hdirs : ∀ k, 1 ≤ k → k ≤ la.length → dirs (k, k) = some 1) :
    ∀ (k fuel : ℕ), k ≤ la.length → 2 * k ≤ fuel →
      traceback la la dirs fuel k k = (la.take k).map (fun e => matchedRow e e) := by
  intro k
  induction k with
  | zero =>
    intro fuel _ _
    cases fuel with
    | zero => simp [traceback]
    | succ f => simp [traceback]
  | succ q ih =>
    intro fuel hk hfuel
    obtain ⟨f, rfl⟩ : ∃ f, fuel = f + 1 := ⟨fuel - 1, by omega⟩
    simp only [traceback]
    rw [if_neg (show ¬(q + 1 = 0 ∧ q + 1 = 0) by omega)]
    rw [hdirs (q + 1) (by omega) hk]
    dsimp only
    rw [if_pos rfl]
    simp only [Nat.add_sub_cancel]
    have hs : (0 : ℚ) < calculateScore (la.getD q dummyLine) (la.getD q dummyLine) := by
      rw [calculateScore_self]
      norm_num
    rw [if_pos hs]
    rw [ih f (by omega) (by omega)]
    rw [← take_step la dummyLine q (by omega)]
    rw [List.map_append]
    rfl

/-- C2 (confirmed).  Aligning a parsed trace against itself yields exactly one
diff row per event, every row of type `matched`, and every row's duration
delta (`timeDiff`) and user-time delta both stored as zero. -/
theorem c2_self_alignment_all_match (t : ParsedTrace) :
    (alignTraces t t).length = t.lines.length ∧
    (alignTraces t t).all
      (fun r => decide (r.rtype = RowType.matched) && decide (r.timeDiff = some (0 : ℚ))
        && decide (r.userDiffDelta = some (0 : ℚ))) = true := by
  have hmain : alignTraces t t = t.lines.map (fun e => matchedRow e e) := by
    unfold alignTraces
    dsimp only
    by_cases hn0 : t.lines.length = 0
    · have hlnil : t.lines = [] := List.length_eq_zero.mp hn0
      rw [hlnil]
      simp [traceback]
    · have hn1 : 1 ≤ t.lines.length := by omega
      have hdd := alignFill_diag t.lines hn1
      have htb := traceback_diag t.lines (alignFill t.lines t.lines).dirs
        (fun k hk1 hk2 => (hdd k hk1 hk2).2) t.lines.length
        (t.lines.length + t.lines.length) (le_refl _) (by omega)
      rw [htb, List.take_length]
  constructor
  · rw [hmain, List.length_map]
  · rw [hmain, List.all_eq_true]
    intro r hr
    obtain ⟨e, he, rfl⟩ := List.mem_map.mp hr
    unfold matchedRow
    simp

/-! ## C5 — the band covers everything on small inputs -/

/-- With all three candidates present, the JS selection stores their maximum
(in the association order of the full recurrence). -/
lemma jsSelect_all_some_fst (lv uv dv : ℚ) :
    ∃ d : ℕ, jsSelect (some lv) (some uv) (some dv) = some (max dv (max uv lv), d) := by
  unfold jsSelect
  dsimp only
  by_cases hgt : optGt (some uv) (some lv) = true
  · have huv : lv < uv := by simpa [optGt] using hgt
    rw [if_pos hgt, if_pos hgt]
    by_cases hge : optGe (some dv) (some uv) = true
    · have hdu : uv ≤ dv := by simpa [optGe] using hge
      rw [if_pos hge, if_pos hge]
      refine ⟨1, ?_⟩
      have hmax : max dv (max uv lv) = dv := by
        rw [max_eq_left (le_of_lt huv)]
        exact max_eq_left hdu
      rw [hmax]
    · have hdu : ¬ uv ≤ dv := by simpa [optGe] using hge
      rw [if_neg hge, if_neg hge]
      refine ⟨2, ?_⟩
      have hmax : max dv (max uv lv) = uv := by
        rw [max_eq_left (le_of_lt huv)]
        exact max_eq_right (by linarith)
      rw [hmax]
  · have huv : ¬ lv < uv := by simpa [optGt] using hgt
    rw [if_neg hgt, if_neg hgt]
    by_cases hge : optGe (some dv) (some lv) = true
    · have hdl : lv ≤ dv := by simpa [optGe] using hge
      rw [if_pos hge, if_pos hge]
      refine ⟨1, ?_⟩
      have hmax : max dv (max uv lv) = dv := by
        rw [max_eq_right (by linarith : uv ≤ lv)]
        exact max_eq_left hdl
      rw [hmax]
    · have hdl : ¬ lv ≤ dv := by simpa [optGe] using hge
      rw [if_neg hge, if_neg hge]
      refine ⟨3, ?_⟩
      have hmax : max dv (max uv lv) = lv := by
        rw [max_eq_right (by linarith : uv ≤ lv)]
        exact max_eq_right (by linarith)
      rw [hmax]

lemma fullScore_row0 (la lb : List TraceLine) (j : ℕ) :
    fullScore la lb 0 j = (j : ℚ) * SCORE_GAP := by
  cases j with
  | zero => simp [fullScore]
  | succ j2 => simp [fullScore]

lemma fullScore_col0 (la lb : List TraceLine) (i : ℕ) :
    fullScore la lb i 0 = (i : ℚ) * SCORE_GAP := by
  cases i with
  | zero => simp [fullScore]
  | succ i2 => simp [fullScore]

/-- An interior cell with all three neighbours known computes exactly the
full-recurrence value. -/
lemma fillCell_full (la lb : List TraceLine) (st : AlignSt) (a b : ℕ)
    (hup : getScoreFn st.scores a (b + 1) = some (fullScore la lb a (b + 1)))
    (hleft : getScoreFn st.scores (a + 1) b = some (fullScore la lb (a + 1) b))
    (hdiag : getScoreFn st.scores a b = some (fullScore la lb a b)) :
    (fillCell la lb st (a + 1) (b + 1)).scores (a + 1, b + 1)
      = some (fullScore la lb (a + 1) (b + 1)) := by
  unfold fillCell
  rw [if_neg (by omega : ¬(a + 1 = 0 ∧ b + 1 = 0))]
  dsimp only
  rw [if_pos (show 0 < b + 1 by omega), if_pos (show 0 < a + 1 by omega),
    if_pos (show 0 < a + 1 ∧ 0 < b + 1 by omega)]
  simp only [Nat.add_sub_cancel]
  rw [hleft, hup, hdiag]
  simp only [Option.map_some']
  obtain ⟨d, hd⟩ := jsSelect_all_some_fst
    (fullScore la lb (a + 1) b + SCORE_GAP)
    (fullScore la lb a (b + 1) + SCORE_GAP)
    (fullScore la lb a b + calculateScore (la.getD a dummyLine) (lb.getD b dummyLine))
  rw [hd]
  dsimp only
  unfold upd2
  rw [if_pos rfl]
  congr 1
  simp only [fullScore]

/-- All interior cells of the first `d` rows hold the full-recurrence value. -/
def fullDone (la lb : List TraceLine) (m : ℕ) (st : AlignSt) (d : ℕ) : Prop :=
  ∀ a b, 1 ≤ a → a ≤ d → 1 ≤ b → b ≤ m → st.scores (a, b) = some (fullScore la lb a b)

lemma getScoreFn_full {la lb : List TraceLine} {m : ℕ} {st : AlignSt} {d : ℕ}
    (h : fullDone la lb m st d) (a b : ℕ) (had : a ≤ d) (hbm : b ≤ m) :
    getScoreFn st.scores a b = some (fullScore la lb a b) := by
  unfold getScoreFn
  split
  · rename_i h0
    rw [h0.1, h0.2]
    simp [fullScore]
  · split
    · rename_i h0 hi
      subst hi
      rw [fullScore_row0]
    · split
      · rename_i h0 h1 hj
        subst hj
        rw [fullScore_col0]
      · rename_i h0 h1 h2
        exact h a b (by omega) had (by omega) hbm

lemma fillRowFrom_full (la lb : List TraceLine) (m i : ℕ) (hi : 1 ≤ i) :
    ∀ (cnt j : ℕ) (st : AlignSt),
      fullDone la lb m st (i - 1) →
      (∀ b, 1 ≤ b → b < j → st.scores (i, b) = some (fullScore la lb i b)) →
      j + cnt = m + 1 →
      (∀ b, 1 ≤ b → b ≤ m → (fillRowFrom la lb i j cnt st).scores (i, b)
          = some (fullScore la lb i b)) ∧
        fullDone la lb m (fillRowFrom la lb i j cnt st) (i - 1) := by
  intro cnt
  induction cnt with
  | zero =>
    intro j st hdone hrow heq
    refine ⟨?_, hdone⟩
    intro b hb1 hbm
    exact hrow b hb1 (by omega)
  | succ c ih =>
    intro j st hdone hrow heq
    simp only [fillRowFrom]
    have hjm : j ≤ m := by omega
    have hdone2 : fullDone la lb m (fillCell la lb st i j) (i - 1) := by
      intro a b ha1 had hb1 hbm
      rw [fillCell_scores_other la lb st i j (a, b) (by
          intro hc
          have h5 : a = i := congrArg Prod.fst hc
          omega) (by
          intro hc
          have h5 : a = 0 := congrArg Prod.fst hc
          omega)]
      exact hdone a b ha1 had hb1 hbm
    have hrow2 : ∀ b, 1 ≤ b → b < j + 1 → (fillCell la lb st i j).scores (i, b)
        = some (fullScore la lb i b) := by
      intro b hb1 hbj
      by_cases hbjeq : b = j
      · rw [hbjeq]
        obtain ⟨a2, ha2⟩ : ∃ a2, i = a2 + 1 := ⟨i - 1, by omega⟩
        obtain ⟨b2, hb2⟩ : ∃ b2, j = b2 + 1 := ⟨j - 1, by omega⟩
        rw [ha2, hb2]
        refine fillCell_full la lb st a2 b2 ?_ ?_ ?_
        · exact getScoreFn_full hdone a2 (b2 + 1) (by omega) (by omega)
        · rw [← ha2]
          rcases Nat.eq_zero_or_pos b2 with hbb0 | hbb1
          · subst hbb0
            unfold getScoreFn
            rw [if_neg (by omega : ¬(i = 0 ∧ 0 = 0)), if_neg (by omega : ¬ i = 0),
              if_pos rfl, fullScore_col0]
          · unfold getScoreFn
            rw [if_neg (by omega : ¬(i = 0 ∧ b2 = 0)), if_neg (by omega : ¬ i = 0),
              if_neg (by omega : ¬ b2 = 0)]
            exact hrow b2 hbb1 (by omega)
        · exact getScoreFn_full hdone a2 b2 (by omega) (by omega)
      · have hblt : b < j := by omega
        rw [fillCell_scores_other la lb st i j (i, b) (by
            intro hc
            have h5 : b = j := congrArg Prod.snd hc
            omega) (by
            intro hc
            have h5 : i = 0 := congrArg Prod.fst hc
            omega)]
        exact hrow b hb1 hblt
    exact ih (j + 1) (fillCell la lb st i j) hdone2 hrow2 (by omega)

lemma fillRowsFrom_full (la lb : List TraceLine) (n m : ℕ) (hn : 1 ≤ n) (hm50 : m ≤ 50) :
    ∀ (cnt i : ℕ) (st : AlignSt), i + cnt = n + 1 →
      fullDone la lb m st (i - 1) →
      fullDone la lb m (fillRowsFrom la lb n m (bandK n m) i cnt st) n := by
  intro cnt
  induction cnt with
  | zero =>
    intro i st heq hdone
    have hieq : i - 1 = n := by omega
    rw [hieq] at hdone
    exact hdone
  | succ c ih =>
    intro i st heq hdone
    simp only [fillRowsFrom]
    rw [if_neg (by omega : ¬ n = 0)]
    have hcle : rowCenter n m i ≤ m := by
      unfold rowCenter
      have h1 : i * m ≤ n * m := Nat.mul_le_mul_right m (by omega : i ≤ n)
      have h2 : n * m / n = m := by
        rw [Nat.mul_comm, Nat.mul_div_assoc m (dvd_refl n), Nat.div_self (by omega : 0 < n),
          Nat.mul_one]
      calc i * m / n ≤ n * m / n := Nat.div_le_div_right h1
        _ = m := h2
    have hK : 200 ≤ bandK n m := le_max_left _ _
    have hsj : rowCenter n m i - bandK n m = 0 := by omega
    have hej : min m (rowCenter n m i + bandK n m) = m := min_eq_left (by omega)
    rw [hsj, hej]
    simp only [Nat.sub_zero]
    by_cases hi0 : i = 0
    · subst hi0
      refine ih 1 _ (by omega) ?_
      intro a b ha1 had hb1 hbm
      exact absurd (le_trans ha1 had) (by omega)
    · have hi1 : 1 ≤ i := by omega
      have hrow := fillRowFrom_full la lb m i hi1 (m + 1) 0 st hdone (by
        intro b hb1 hb0
        exact absurd hb0 (by omega)) (by omega)
      refine ih (i + 1) _ (by omega) ?_
      intro a b ha1 had hb1 hbm
      by_cases hai : a = i
      · rw [hai]
        exact hrow.1 b hb1 hbm
      · exact hrow.2 a b ha1 (by omega) hb1 hbm

/-- With `n = 0` the outer loop never runs its body (`center` is `NaN` in JS). -/
lemma fillRowsFrom_n0 (la lb : List TraceLine) (m K : ℕ) :
    ∀ (cnt i : ℕ) (st : AlignSt), fillRowsFrom la lb 0 m K i cnt st = st := by
  intro cnt
  induction cnt with
  | zero => intro i st; rfl
  | succ c ih =>
    intro i st
    simp only [fillRowsFrom, if_true]
    exact ih (i + 1) st

/-- C5 (confirmed).  For event sequences both of length at most 50, the banded
dynamic program's total score at the final cell equals the optimal score of
the full unbanded global-alignment recurrence over the same sequences and
scoring functions. -/
theorem c5_banded_equals_full (tA tB : ParsedTrace)
    (hn : tA.lines.length ≤ 50) (hm : tB.lines.length ≤ 50) :
    bandedTotalScore tA tB
      = some (fullScore tA.lines tB.lines tA.lines.length tB.lines.length) := by
  unfold bandedTotalScore alignFill
  by_cases h0 : tA.lines.length = 0
  · rw [h0, fillRowsFrom_n0]
    rcases hb : tB.lines.length with _ | m2 <;> simp [getScoreFn, fullScore]
  · have hn1 : 1 ≤ tA.lines.length := by omega
    have hfull := fillRowsFrom_full tA.lines tB.lines tA.lines.length tB.lines.length hn1 hm
      (tA.lines.length + 1) 0 initAlignSt (by omega) (by
        intro a b ha1 had hb1 hbm
        exact absurd (le_trans ha1 had) (by omega))
    exact getScoreFn_full hfull tA.lines.length tB.lines.length (le_refl _) (le_refl _)

/-- A one-event trace and an empty trace used to witness C5's hypotheses. -/
def c5TA : ParsedTrace := ⟨"a", [dummyLine], ⟨0, 0, 0, 0, []⟩, []⟩

def c5TB : ParsedTrace := ⟨"b", [], ⟨0, 0, 0, 0, []⟩, []⟩

theorem c5_banded_equals_full_witness :
    c5TA.lines.length ≤ 50 ∧ c5TB.lines.length ≤ 50 ∧
      bandedTotalScore c5TA c5TB
        = some (fullScore c5TA.lines c5TB.lines c5TA.lines.length c5TB.lines.length) :=
  ⟨by decide, by decide, c5_banded_equals_full c5TA c5TB (by decide) (by decide)⟩

/-! ## C9 — graceful handling of unrecognized lines -/

/-- A line the variant-B grammar does not recognize. -/
def perfUnrecognized (raw : String) : Bool :=
  (jsTrim raw).data.isEmpty || (perfMatch (jsTrim raw).data).isNone

/-- A line no variant-A grammar case recognizes (empty after trimming, no
parseable timestamp, or a body matching none of resumed/unfinished/standard). -/
def straceUnrecognized (raw : String) : Bool :=
  (jsTrim raw).data.isEmpty ||
  (match timeMatch (stracePidRest (jsTrim raw).data).2 with
   | none => true
   | some tb =>
     (resumeMatch tb.2).isNone && (unfinMatch tb.2).isNone && (stdMatch tb.2).isNone)

lemma perfStep_lines_cases (st : PerfSt) (idx : ℕ) (raw : String) :
    (perfStep st idx raw).lines = st.lines ∨
      ∃ ev, (perfStep st idx raw).lines = st.lines ++ [ev] := by
  unfold perfStep
  repeat' (first | split | dsimp only)
  all_goals first
    | exact Or.inl rfl
    | exact Or.inr ⟨_, rfl⟩

lemma perfStep_len (st : PerfSt) (idx : ℕ) (raw : String) :
    (perfStep st idx raw).lines.length ≤ st.lines.length + 1 := by
  rcases perfStep_lines_cases st idx raw with h | ⟨ev, h⟩ <;> rw [h] <;> simp

lemma straceStep_lines_cases (st : StraceSt) (idx : ℕ) (raw : String) :
    (straceStep st idx raw).lines = st.lines ∨
      ∃ ev, (straceStep st idx raw).lines = st.lines ++ [ev] := by
  unfold straceStep
  dsimp only
  split
  · exact Or.inl rfl
  · exact straceBody_lines_cases _ idx raw _ _

lemma straceStep_len (st : StraceSt) (idx : ℕ) (raw : String) :
    (straceStep st idx raw).lines.length ≤ st.lines.length + 1 := by
  rcases straceStep_lines_cases st idx raw with h | ⟨ev, h⟩ <;> rw [h] <;> simp

lemma perfRun_len : ∀ (ls : List String) (st : PerfSt) (idx : ℕ),
    (perfRun st idx ls).lines.length ≤ st.lines.length + ls.length := by
  intro ls
  induction ls with
  | nil => intro st idx; exact Nat.le.refl
  | cons r rs ih =>
    intro st idx
    have h1 := perfStep_len st idx r
    have h2 := ih (perfStep st idx r) (idx + 1)
    simp only [perfRun, List.length_cons]
    omega

lemma straceRun_len : ∀ (ls : List String) (st : StraceSt) (idx : ℕ),
    (straceRun st idx ls).lines.length ≤ st.lines.length + ls.length := by
  intro ls
  induction ls with
  | nil => intro st idx; exact Nat.le.refl
  | cons r rs ih =>
    intro st idx
    have h1 := straceStep_len st idx r
    have h2 := ih (straceStep st idx r) (idx + 1)
    simp only [straceRun, List.length_cons]
    omega

/-- C9.  For every input string, parsing (in either format variant) returns a
ParsedTrace (the embedded parsers are total functions); every line that does
not match a recognized grammar variant of the selected format contributes no
event and parsing continues with the remaining lines, so the output event
sequence never exceeds the line count of the input. -/
theorem c9_graceful_parsing :
    (∀ content fn mode, (parseTrace content fn mode).lines.length
        ≤ (splitLines content).length)
    ∧ (∀ st idx raw, perfUnrecognized raw = true → perfStep st idx raw = st)
    ∧ (∀ st idx raw, straceUnrecognized raw = true →
        (straceStep st idx raw).lines = st.lines) := by
  refine ⟨?_, ?_, ?_⟩
  · intro content fn mode
    cases mode with
    | perf =>
      show (perfRun initPerfSt 0 (splitLines content)).lines.length ≤ _
      have := perfRun_len (splitLines content) initPerfSt 0
      simpa [initPerfSt] using this
    | strace =>
      show ((straceRun initStraceSt 0 (splitLines content)).lines.mergeSort traceLineLe).length
          ≤ _
      have hperm := List.mergeSort_perm
        ((straceRun initStraceSt 0 (splitLines content)).lines) traceLineLe
      rw [hperm.length_eq]
      have := straceRun_len (splitLines content) initStraceSt 0
      simpa [initStraceSt] using this
  · intro st idx raw h
    unfold perfUnrecognized at h
    unfold perfStep
    dsimp only
    by_cases hemp : (jsTrim raw).data = []
    · rw [if_pos hemp]
    · rw [if_neg hemp]
      rcases Bool.or_eq_true_iff.mp h with h1 | h2
      · exact absurd (by simpa using h1) hemp
      · rw [Option.isNone_iff_eq_none.mp h2]
  · intro st idx raw h
    unfold straceUnrecognized at h
    unfold straceStep
    dsimp only
    by_cases hemp : (jsTrim raw).data = []
    · rw [if_pos hemp]
    · rw [if_neg hemp]
      rcases Bool.or_eq_true_iff.mp h with h1 | h2
      · exact absurd (by simpa using h1) hemp
      · unfold straceBody
        dsimp only
        rcases htm : timeMatch (stracePidRest (jsTrim raw).data).2 with _ | tb
        · rfl
        · rw [htm] at h2
          dsimp only
          simp only [Bool.and_eq_true, Option.isNone_iff_eq_none] at h2
          obtain ⟨⟨hr, hu⟩, hs⟩ := h2
          rw [hr, hu, hs]

/-- C9 witness: the count bound and both step facts at a concrete garbage
line (with the unrecognizedness hypotheses discharged there). -/
theorem c9_graceful_parsing_witness :
    (parseTrace "garbage" "f" TraceMode.strace).lines.length
        ≤ (splitLines "garbage").length
    ∧ perfStep initPerfSt 0 "garbage" = initPerfSt
    ∧ (straceStep initStraceSt 0 "garbage").lines = initStraceSt.lines :=
  ⟨c9_graceful_parsing.1 "garbage" "f" TraceMode.strace,
   c9_graceful_parsing.2.1 initPerfSt 0 "garbage" (by decide),
   c9_graceful_parsing.2.2 initStraceSt 0 "garbage" (by decide)⟩

end StracePerfDiff
